import Mathlib

/-!
# AudioVisualizationQueue: a double-buffered sample hand-off

A verification development over `src/AudioVisulizationQueue.hpp`.

The C++ class owns two `std::vector<T>` slots.  `frontBuffer` and `backBuffer` are
references bound once to `containers[0]` and `containers[1]`; a role swap is
`std::swap` of the two vectors' contents, and a read is `vector::swap` between the
caller's vector and the front slot.  A state of the queue is therefore the pair of
slot contents together with the two scalar members.

Two layers are given.

* A call-level layer, in which each member function runs to completion.  The
  `while` loop of `writeBlocking` is run with an iteration budget (`fuel`); the
  result is `none` when the budget does not suffice or when the loop body would
  form an iterator past the end of the back slot.
* A lock-level layer (`Machine`), in which the producer thread advances from one
  mutex boundary of `writeBlocking` to the next, so that a consumer call can be
  placed between the two role swaps of one `writeBlocking` call.

Both layers emit a trace of `Event`s.  Only `Event.warning` is an output of the
program (the `fprintf` on line 57); the other events observe what happened.
-/

namespace AVQ

/-- State of `AudioVisualizationQueue<T, N>`: the members declared on lines 74-78.
`frontBuffer` is the content of `containers[0]`, `backBuffer` that of `containers[1]`. -/
structure AudioVisualizationQueue (α : Type) where
  frontBuffer : List α
  backBuffer : List α
  frontBufferFilled : Bool
  backBufferWriteIdx : Nat
deriving DecidableEq, Repr

/-- Observations recorded while the member functions run. -/
inductive Event (α : Type) where
  /-- Line 57: the overflow diagnostic is printed; `excess` is the value of
  `backBufferWriteIdx` at that point (the message shows it converted to `int`). -/
  | warning (excess : Nat)
  /-- Lines 49-59 completed: `numElementsToWrite` samples were copied and the cursor
  now has the given value. -/
  | iteration (numElementsToWrite : Nat) (backBufferWriteIdx : Nat)
  /-- Lines 35-42: a role swap; `frame` is the content that became the front slot. -/
  | swapped (frame : List α)
  /-- A read took the front slot; `frame` is what the caller received. -/
  | consumed (frame : List α)
  /-- The non-blocking read `tryReadInto` returned `false`. -/
  | missed
deriving DecidableEq, Repr

/-- The defaulted constructor with the member initialisers of lines 74-78:
both slots are `container(N)`, i.e. `N` value-initialised elements. -/
def construct {α : Type} [Inhabited α] (N : Nat) : AudioVisualizationQueue α :=
  { frontBuffer := List.replicate N default
    backBuffer := List.replicate N default
    frontBufferFilled := false
    backBufferWriteIdx := 0 }

/-- Lines 14-20, `readIntoBlocking`.  The call returns only once `frontBufferFilled`
holds; `none` stands for a call that stays suspended on the condition variable in
this state.  On return the caller's vector and the front slot have exchanged
contents.  The result is the new queue state and the caller's buffer. -/
def readIntoBlocking {α : Type} (q : AudioVisualizationQueue α) (buffer : List α) :
    Option (AudioVisualizationQueue α × List α) :=
  if q.frontBufferFilled then
    some ({ q with frontBuffer := buffer, frontBufferFilled := false }, q.frontBuffer)
  else
    none

/-- Lines 22-33, `tryReadInto`.  `ownsLock` is the outcome of the `try_to_lock`
acquisition (`lk.owns_lock()`).  The result is the returned flag, the new queue state
and the caller's buffer. -/
def tryReadInto {α : Type} (ownsLock : Bool) (q : AudioVisualizationQueue α)
    (buffer : List α) : Bool × AudioVisualizationQueue α × List α :=
  if !ownsLock || !q.frontBufferFilled then
    (false, q, buffer)
  else
    (true, { q with frontBuffer := buffer, frontBufferFilled := false }, q.frontBuffer)

/-- Lines 35-42, `swapBuffersBlocking`: `std::swap(backBuffer, frontBuffer)` and
`frontBufferFilled = true`. -/
def swapBuffersBlocking {α : Type} (q : AudioVisualizationQueue α) :
    AudioVisualizationQueue α :=
  { q with frontBuffer := q.backBuffer, backBuffer := q.frontBuffer,
           frontBufferFilled := true }

/-- Result of the part of the loop body that runs under the producer's lock. -/
structure Filled (α : Type) where
  queue : AudioVisualizationQueue α
  elementsWritten : Nat
  /-- The branch of line 54 was taken: the lock is released and a swap follows. -/
  full : Bool
  events : List (Event α)
deriving DecidableEq, Repr

/-- Lines 49-59 of `writeBlocking`, the part of the loop body executed under `lk`.
`none` when `backBufferWriteIdx` exceeds `backBuffer.size()`: line 49 then forms an
iterator past the end of the vector, which has no defined behaviour. -/
def fillBackBuffer {α : Type} (q : AudioVisualizationQueue α) (data : List α)
    (elementsWritten : Nat) : Option (Filled α) :=
  if q.backBuffer.length < q.backBufferWriteIdx then
    none
  else
    let elementsAvailableInBackBuffer := q.backBuffer.length - q.backBufferWriteIdx
    let numElementsToWrite := min elementsAvailableInBackBuffer (data.length - elementsWritten)
    -- std::copy_n(data.begin() + elementsWritten, numElementsToWrite,
    --             backBuffer.begin() + backBufferWriteIdx): the copy overwrites
    -- numElementsToWrite positions in place, backBuffer.size() stays as it is
    let backBuffer := q.backBuffer.take q.backBufferWriteIdx
      ++ (data.drop elementsWritten).take numElementsToWrite
      ++ q.backBuffer.drop (q.backBufferWriteIdx + numElementsToWrite)
    let elementsWritten := elementsWritten + numElementsToWrite
    let backBufferWriteIdx := q.backBufferWriteIdx + numElementsToWrite
    if q.backBuffer.length ≤ backBufferWriteIdx then
      let excess := backBufferWriteIdx - q.backBuffer.length
      some { queue := { q with backBuffer := backBuffer, backBufferWriteIdx := 0 }
             elementsWritten := elementsWritten
             full := true
             events := (if 0 < excess then [Event.warning excess] else [])
               ++ [Event.iteration numElementsToWrite 0] }
    else
      some { queue := { q with backBuffer := backBuffer,
                               backBufferWriteIdx := backBufferWriteIdx }
             elementsWritten := elementsWritten
             full := false
             events := [Event.iteration numElementsToWrite backBufferWriteIdx] }

/-- Lines 47-67: the `while` loop of `writeBlocking`, entered at the loop condition
with the given `elementsWritten`.  `fuel` bounds the number of iterations. -/
def writeLoop {α : Type} (data : List α) :
    Nat → Nat → AudioVisualizationQueue α →
      Option (AudioVisualizationQueue α × List (Event α))
  | 0, elementsWritten, q =>
    if elementsWritten < data.length then none else some (q, [])
  | fuel + 1, elementsWritten, q =>
    if elementsWritten < data.length then
      match fillBackBuffer q data elementsWritten with
      | none => none
      | some r =>
        if r.full then
          let q1 := swapBuffersBlocking r.queue
          (writeLoop data fuel r.elementsWritten q1).map
            (fun out => (out.1, r.events ++ Event.swapped q1.frontBuffer :: out.2))
        else
          (writeLoop data fuel r.elementsWritten r.queue).map
            (fun out => (out.1, r.events ++ out.2))
    else
      some (q, [])

/-- Lines 44-68, `writeBlocking`, run to completion with at most `fuel` loop
iterations. -/
def writeBlocking {α : Type} (fuel : Nat) (q : AudioVisualizationQueue α)
    (data : List α) : Option (AudioVisualizationQueue α × List (Event α)) :=
  writeLoop data fuel 0 q

/-- A completed call of one of the three public member functions. -/
inductive Call (α : Type) where
  | writeBlocking (data : List α)
  | tryReadInto (ownsLock : Bool) (buffer : List α)
  | readIntoBlocking (buffer : List α)
deriving DecidableEq, Repr

/-- Effect of one completed call.  `none` when the call does not complete in this
state: a `readIntoBlocking` that finds the front slot not filled, or a
`writeBlocking` that is not finished within `fuel` iterations. -/
def step {α : Type} (fuel : Nat) (q : AudioVisualizationQueue α) :
    Call α → Option (AudioVisualizationQueue α × List (Event α))
  | .writeBlocking data => writeBlocking fuel q data
  | .tryReadInto ownsLock buffer =>
    match tryReadInto ownsLock q buffer with
    | (true, q1, got) => some (q1, [Event.consumed got])
    | (false, q1, _) => some (q1, [Event.missed])
  | .readIntoBlocking buffer =>
    match readIntoBlocking q buffer with
    | some (q1, got) => some (q1, [Event.consumed got])
    | none => none

/-- A sequence of completed calls, in the order in which they take effect. -/
def run {α : Type} (fuel : Nat) :
    List (Call α) → AudioVisualizationQueue α →
      Option (AudioVisualizationQueue α × List (Event α))
  | [], q => some (q, [])
  | c :: rest, q =>
    match step fuel q c with
    | none => none
    | some (q1, evs) => (run fuel rest q1).map (fun out => (out.1, evs ++ out.2))

/-! ### Lock-level layer

The producer holds the mutex from line 45 on, releases it on line 60, takes it for
the duration of `swapBuffersBlocking` (lines 37-40) and takes it again on line 64
when data remains.  A consumer call can take effect whenever the producer does not
hold the mutex. -/

/-- Where the producer thread stands inside `writeBlocking`. -/
inductive Producer (α : Type) where
  /-- Not inside `writeBlocking`. -/
  | idle
  /-- Holding `lk`, at the loop condition of line 47. -/
  | locked (data : List α) (elementsWritten : Nat)
  /-- After `lk.unlock()` on line 60, before `swapBuffersBlocking()`. -/
  | released (data : List α) (elementsWritten : Nat)
  /-- After `swapBuffersBlocking()` on line 61, before line 63. -/
  | swapped (data : List α) (elementsWritten : Nat)
deriving DecidableEq, Repr

/-- Whether the producer holds the mutex. -/
def Producer.holdsMutex {α : Type} : Producer α → Bool
  | .locked _ _ => true
  | _ => false

/-- The queue together with the position of the producer thread. -/
structure Machine (α : Type) where
  queue : AudioVisualizationQueue α
  producer : Producer α
deriving DecidableEq, Repr

/-- The moves of the two threads. -/
inductive Move (α : Type) where
  /-- The producer calls `writeBlocking` and acquires the mutex (line 45). -/
  | call (data : List α)
  /-- The producer runs on to its next mutex boundary. -/
  | advance
  /-- The consumer calls `tryReadInto`. -/
  | tryReadInto (buffer : List α)
  /-- A `readIntoBlocking` call of the consumer wakes up and returns. -/
  | readIntoBlocking (buffer : List α)
deriving DecidableEq, Repr

/-- One move.  `none` when the move cannot be made in this state.  The `try_to_lock`
acquisition of `tryReadInto` succeeds exactly when the producer does not hold the
mutex; a `readIntoBlocking` call can return only when the mutex is free and the
front slot is filled. -/
def Machine.move {α : Type} (m : Machine α) : Move α → Option (Machine α × List (Event α))
  | .call data =>
    match m.producer with
    | .idle => some ({ m with producer := .locked data 0 }, [])
    | _ => none
  | .advance =>
    match m.producer with
    | .idle => none
    | .locked data elementsWritten =>
      if elementsWritten < data.length then
        match fillBackBuffer m.queue data elementsWritten with
        | none => none
        | some r =>
          some ({ queue := r.queue
                  producer := if r.full then .released data r.elementsWritten
                              else .locked data r.elementsWritten }, r.events)
      else
        some ({ m with producer := .idle }, [])
    | .released data elementsWritten =>
      let q1 := swapBuffersBlocking m.queue
      some ({ queue := q1, producer := .swapped data elementsWritten },
            [Event.swapped q1.frontBuffer])
    | .swapped data elementsWritten =>
      if elementsWritten < data.length then
        some ({ m with producer := .locked data elementsWritten }, [])
      else
        some ({ m with producer := .idle }, [])
  | .tryReadInto buffer =>
    match tryReadInto (!m.producer.holdsMutex) m.queue buffer with
    | (true, q1, got) => some ({ m with queue := q1 }, [Event.consumed got])
    | (false, q1, _) => some ({ m with queue := q1 }, [Event.missed])
  | .readIntoBlocking buffer =>
    if m.producer.holdsMutex then
      none
    else
      match readIntoBlocking m.queue buffer with
      | some (q1, got) => some ({ m with queue := q1 }, [Event.consumed got])
      | none => none

/-- A sequence of moves. -/
def Machine.run {α : Type} :
    List (Move α) → Machine α → Option (Machine α × List (Event α))
  | [], m => some (m, [])
  | mv :: rest, m =>
    match m.move mv with
    | none => none
    | some (m1, evs) => (Machine.run rest m1).map (fun out => (out.1, evs ++ out.2))

/-! ### Observations on traces and schedules -/

/-- The frames made front by the role swaps of a trace, in order. -/
def swapFrames {α : Type} : List (Event α) → List (List α)
  | [] => []
  | .swapped frame :: rest => frame :: swapFrames rest
  | _ :: rest => swapFrames rest

/-- The values printed by the overflow diagnostic, in order. -/
def warnings {α : Type} : List (Event α) → List Nat
  | [] => []
  | .warning n :: rest => n :: warnings rest
  | _ :: rest => warnings rest

/-- The loop iterations of a trace: samples copied and cursor after the iteration. -/
def iterations {α : Type} : List (Event α) → List (Nat × Nat)
  | [] => []
  | .iteration n c :: rest => (n, c) :: iterations rest
  | _ :: rest => iterations rest

/-- What the successful reads of a trace handed to the caller, in order. -/
def consumedFrames {α : Type} : List (Event α) → List (List α)
  | [] => []
  | .consumed frame :: rest => frame :: consumedFrames rest
  | _ :: rest => consumedFrames rest

/-- Whether a role swap occurs in the trace after its last successful read
(anywhere in the trace when there is no successful read). -/
def swapSinceLastRead {α : Type} : List (Event α) → Bool
  | [] => false
  | .swapped _ :: rest =>
    if (consumedFrames rest).isEmpty then true else swapSinceLastRead rest
  | _ :: rest => swapSinceLastRead rest

/-- All samples passed to `writeBlocking` by a schedule, concatenated in call order. -/
def written {α : Type} : List (Call α) → List α
  | [] => []
  | .writeBlocking data :: rest => data ++ written rest
  | _ :: rest => written rest

/-- Every buffer a schedule passes to a read operation has length `N`. -/
def readBuffersSized {α : Type} (N : Nat) : List (Call α) → Prop
  | [] => True
  | .writeBlocking _ :: rest => readBuffersSized N rest
  | .tryReadInto _ buffer :: rest => buffer.length = N ∧ readBuffersSized N rest
  | .readIntoBlocking buffer :: rest => buffer.length = N ∧ readBuffersSized N rest

/-- Samples `[j * N, (j + 1) * N)` of a stream. -/
def frameAt {α : Type} (N : Nat) (stream : List α) (j : Nat) : List α :=
  (stream.drop (j * N)).take N

/-- Every `writeBlocking` call of a schedule passes fewer than `fuel` samples. -/
def writesWithin {α : Type} (fuel : Nat) : List (Call α) → Prop
  | [] => True
  | .writeBlocking data :: rest => data.length < fuel ∧ writesWithin fuel rest
  | _ :: rest => writesWithin fuel rest

/-- A schedule without `readIntoBlocking` calls. -/
def noBlockingRead {α : Type} : List (Call α) → Prop
  | [] => True
  | .readIntoBlocking _ :: _ => False
  | _ :: rest => noBlockingRead rest

/-! ### Invariants used in the proofs -/

/-- The value of `frontBufferFilled` after a trace, starting from the value `b`:
a role swap sets it, a successful read clears it. -/
def flagAfter {α : Type} (b : Bool) : List (Event α) → Bool
  | [] => b
  | .swapped _ :: rest => flagAfter true rest
  | .consumed _ :: rest => flagAfter false rest
  | _ :: rest => flagAfter b rest

/-- The queue follows the stream `S` of samples written so far: `a` whole frames
have been completed, both slots have length `N`, and the back slot holds the
unfinished frame up to the cursor. -/
def Tracks {α : Type} (N : Nat) (S : List α) (a : Nat) (q : AudioVisualizationQueue α) :
    Prop :=
  q.frontBuffer.length = N ∧ q.backBuffer.length = N ∧ q.backBufferWriteIdx < N ∧
  S.length = a * N + q.backBufferWriteIdx ∧
  q.backBuffer.take q.backBufferWriteIdx = S.drop (a * N)

/-- What the loop of `writeBlocking` achieves from a state `q` that tracks the
stream with `a` completed frames: `q1` and `evs` are the final state and the trace,
`a1` the number of completed frames afterwards, `rest` the samples still to write. -/
structure LoopPost {α : Type} (N : Nat) (S : List α) (a : Nat) (rest : Nat)
    (q : AudioVisualizationQueue α) (q1 : AudioVisualizationQueue α)
    (evs : List (Event α)) (a1 : Nat) : Prop where
  le : a ≤ a1
  tracks : Tracks N S a1 q1
  frames : swapFrames evs = (List.range' a (a1 - a)).map (frameAt N S)
  quiet : warnings evs = []
  noRead : consumedFrames evs = []
  same : a1 = a →
    q1.frontBuffer = q.frontBuffer ∧ q1.frontBufferFilled = q.frontBufferFilled
  renewed : a < a1 → q1.frontBufferFilled = true ∧ q1.frontBuffer = frameAt N S (a1 - 1)
  count : (iterations evs).length ≤ (a1 - a) + 1
  each : ∀ p ∈ iterations evs, 0 < p.1 ∧ p.2 < N
  total : ((iterations evs).map Prod.fst).sum = rest

/-- What a schedule achieves from a state that tracks the stream with `a` completed
frames: `q1` and `log` are the final state and the trace, `a1` the number of
completed frames afterwards. -/
structure RunPost {α : Type} (N : Nat) (S : List α) (a : Nat)
    (q1 : AudioVisualizationQueue α) (log : List (Event α)) (a1 : Nat) : Prop where
  le : a ≤ a1
  tracks : Tracks N S a1 q1
  frames : swapFrames log = (List.range' a (a1 - a)).map (frameAt N S)
  quiet : warnings log = []
  each : ∀ p ∈ iterations log, 0 < p.1 ∧ p.2 < N
  front : q1.frontBufferFilled = true → 0 < a1 ∧ q1.frontBuffer = frameAt N S (a1 - 1)

/-! ## Lemmas -/

section Lemmas

variable {α : Type}

theorem fillBackBuffer_fit (q : AudioVisualizationQueue α) (data : List α) (ew N : Nat)
    (hb : q.backBuffer.length = N) (hc : q.backBufferWriteIdx < N) (hew : ew < data.length)
    (hfit : q.backBufferWriteIdx + (data.length - ew) < N) :
    fillBackBuffer q data ew = some
      { queue := { q with
          backBuffer := q.backBuffer.take q.backBufferWriteIdx ++ data.drop ew
            ++ q.backBuffer.drop (q.backBufferWriteIdx + (data.length - ew))
          backBufferWriteIdx := q.backBufferWriteIdx + (data.length - ew) }
        elementsWritten := data.length
        full := false
        events := [Event.iteration (data.length - ew) (q.backBufferWriteIdx + (data.length - ew))] } := by
  have hmin : min (N - q.backBufferWriteIdx) (data.length - ew) = data.length - ew := by
    apply Nat.min_eq_right; omega
  have htake : List.take (data.length - ew) (List.drop ew data) = List.drop ew data := by
    apply List.take_of_length_le; simp
  unfold fillBackBuffer
  simp only [hb, hmin, htake]
  rw [if_neg (by omega), if_neg (by omega)]
  congr 2
  omega

theorem fillBackBuffer_full (q : AudioVisualizationQueue α) (data : List α) (ew N : Nat)
    (hb : q.backBuffer.length = N) (hc : q.backBufferWriteIdx < N)
    (hfull : N ≤ q.backBufferWriteIdx + (data.length - ew)) :
    fillBackBuffer q data ew = some
      { queue := { q with
          backBuffer := q.backBuffer.take q.backBufferWriteIdx
            ++ (data.drop ew).take (N - q.backBufferWriteIdx)
          backBufferWriteIdx := 0 }
        elementsWritten := ew + (N - q.backBufferWriteIdx)
        full := true
        events := [Event.iteration (N - q.backBufferWriteIdx) 0] } := by
  have hmin : min (N - q.backBufferWriteIdx) (data.length - ew) = N - q.backBufferWriteIdx := by
    apply Nat.min_eq_left; omega
  have hidx : q.backBufferWriteIdx + (N - q.backBufferWriteIdx) = N := by omega
  have hdrop : List.drop N q.backBuffer = [] := by
    apply List.drop_of_length_le; omega
  unfold fillBackBuffer
  simp only [hb, hmin, hidx, hdrop, List.append_nil]
  rw [if_neg (by omega), if_pos (le_refl _)]
  simp


theorem writeLoop_done (data : List α) (fuel ew : Nat) (q : AudioVisualizationQueue α)
    (h : ¬ ew < data.length) : writeLoop data fuel ew q = some (q, []) := by
  cases fuel <;> simp [writeLoop, h]

theorem frameAt_append_left (N : Nat) (W X : List α) (j : Nat)
    (h : (j + 1) * N ≤ W.length) : frameAt N (W ++ X) j = frameAt N W j := by
  unfold frameAt
  have h1 : j * N ≤ W.length := by
    have : j * N ≤ (j + 1) * N := Nat.mul_le_mul_right N (Nat.le_succ j)
    omega
  rw [List.drop_append_of_le_length h1]
  apply List.take_append_of_le_length
  rw [List.length_drop, Nat.succ_mul] at *
  omega

theorem swapFrames_append (l1 l2 : List (Event α)) :
    swapFrames (l1 ++ l2) = swapFrames l1 ++ swapFrames l2 := by
  induction l1 with
  | nil => rfl
  | cons e l ih => cases e <;> simp [swapFrames, ih]

theorem warnings_append (l1 l2 : List (Event α)) :
    warnings (l1 ++ l2) = warnings l1 ++ warnings l2 := by
  induction l1 with
  | nil => rfl
  | cons e l ih => cases e <;> simp [warnings, ih]

theorem consumedFrames_append (l1 l2 : List (Event α)) :
    consumedFrames (l1 ++ l2) = consumedFrames l1 ++ consumedFrames l2 := by
  induction l1 with
  | nil => rfl
  | cons e l ih => cases e <;> simp [consumedFrames, ih]

theorem iterations_append (l1 l2 : List (Event α)) :
    iterations (l1 ++ l2) = iterations l1 ++ iterations l2 := by
  induction l1 with
  | nil => rfl
  | cons e l ih => cases e <;> simp [iterations, ih]

theorem writeLoop_spec (N : Nat) (hN : 0 < N) (W data : List α) :
    ∀ (fuel ew : Nat) (q : AudioVisualizationQueue α) (a : Nat), ew ≤ data.length →
      Tracks N (W ++ data.take ew) a q →
      (q.backBufferWriteIdx + (data.length - ew) < fuel * N →
        ∃ out, writeLoop data fuel ew q = some out) ∧
      ∀ q' evs, writeLoop data fuel ew q = some (q', evs) →
        ∃ a', LoopPost N (W ++ data) a (data.length - ew) q q' evs a' := by
  intro fuel
  induction fuel with
  | zero =>
    intro ew q a hew ht
    refine ⟨fun h => by omega, ?_⟩
    intro q' evs hrun
    by_cases hlt : ew < data.length
    · simp [writeLoop, hlt] at hrun
    · simp [writeLoop, hlt] at hrun
      obtain ⟨rfl, rfl⟩ := hrun
      have hewl : ew = data.length := by omega
      subst hewl
      simp only [List.take_length] at ht
      exact ⟨a, ⟨le_refl _, ht, by simp [swapFrames], rfl, rfl, fun _ => ⟨rfl, rfl⟩,
        fun h => absurd h (lt_irrefl _), by simp [iterations], by simp [iterations],
        by simp [iterations]⟩⟩
  | succ fuel ih =>
    intro ew q a hew ht
    obtain ⟨hf, hb, hc, hS, hpart⟩ := ht
    by_cases hlt : ew < data.length
    · by_cases hfit : q.backBufferWriteIdx + (data.length - ew) < N
      · -- the remainder fits: one iteration, no swap
        have hfill := fillBackBuffer_fit q data ew N hb hc hlt hfit
        have hloop : writeLoop data (fuel + 1) ew q = some
            ({ q with
                backBuffer := q.backBuffer.take q.backBufferWriteIdx ++ data.drop ew
                  ++ q.backBuffer.drop (q.backBufferWriteIdx + (data.length - ew))
                backBufferWriteIdx := q.backBufferWriteIdx + (data.length - ew) },
              [Event.iteration (data.length - ew)
                (q.backBufferWriteIdx + (data.length - ew))]) := by
          rw [writeLoop, if_pos hlt, hfill]
          simp [writeLoop_done]
        refine ⟨fun _ => ⟨_, hloop⟩, ?_⟩
        intro q' evs hrun
        rw [hloop] at hrun
        simp only [Option.some.injEq, Prod.mk.injEq] at hrun
        obtain ⟨rfl, rfl⟩ := hrun
        have hsplit : W ++ data = (W ++ data.take ew) ++ data.drop ew := by
          rw [List.append_assoc, List.take_append_drop]
        have haN : a * N ≤ (W ++ data.take ew).length := by omega
        refine ⟨a, ⟨le_refl _, ⟨hf, ?_, hfit, ?_, ?_⟩, by simp [swapFrames], rfl, rfl,
          fun _ => ⟨rfl, rfl⟩, fun h => absurd h (lt_irrefl _), by simp [iterations],
          ?_, by simp [iterations]⟩⟩
        · simp [hb]; omega
        · rw [hsplit, List.length_append, hS, List.length_drop]; simp only; omega
        · simp only
          rw [hsplit, List.drop_append_of_le_length haN, ← hpart, List.append_assoc]
          have hl : (List.take q.backBufferWriteIdx q.backBuffer ++ List.drop ew data).length
              = q.backBufferWriteIdx + (data.length - ew) := by
            simp [hb]; omega
          rw [← List.append_assoc, ← hl, List.take_left]
        · intro p hp
          simp [iterations] at hp
          subst hp
          simp only
          omega
      · -- the back slot fills up: one iteration and a swap, then the loop goes on
        have hfull : N ≤ q.backBufferWriteIdx + (data.length - ew) := by omega
        have hfill := fillBackBuffer_full q data ew N hb hc hfull
        let frame := q.backBuffer.take q.backBufferWriteIdx
            ++ (data.drop ew).take (N - q.backBufferWriteIdx)
        let q1 : AudioVisualizationQueue α :=
          { frontBuffer := frame, backBuffer := q.frontBuffer,
            frontBufferFilled := true, backBufferWriteIdx := 0 }
        have hloop : writeLoop data (fuel + 1) ew q =
            (writeLoop data fuel (ew + (N - q.backBufferWriteIdx)) q1).map
              (fun out => (out.1, [Event.iteration (N - q.backBufferWriteIdx) 0]
                ++ Event.swapped frame :: out.2)) := by
          rw [writeLoop, if_pos hlt, hfill]
          simp [swapBuffersBlocking, q1, frame]
        have hew1 : ew + (N - q.backBufferWriteIdx) ≤ data.length := by omega
        have hflen : frame.length = N := by
          simp [frame, hb]; omega
        have hsplit : W ++ data = (W ++ data.take ew) ++ data.drop ew := by
          rw [List.append_assoc, List.take_append_drop]
        have haN : a * N ≤ (W ++ data.take ew).length := by omega
        have hframe : frame = frameAt N (W ++ data) a := by
          unfold frameAt
          rw [hsplit, List.drop_append_of_le_length haN, ← hpart]
          rw [List.take_append_eq_append_take]
          simp only [frame, List.length_take, hb]
          rw [Nat.min_eq_left (le_of_lt hc)]
          congr 1
          apply (List.take_of_length_le _).symm
          simp; omega
        have hS1 : (W ++ data.take (ew + (N - q.backBufferWriteIdx))).length = (a + 1) * N := by
          have h1 : (W ++ data.take ew).length = W.length + ew := by
            simp; omega
          simp only [List.length_append, List.length_take]
          rw [Nat.min_eq_left hew1, Nat.succ_mul]
          omega
        have ht1 : Tracks N (W ++ data.take (ew + (N - q.backBufferWriteIdx))) (a + 1) q1 := by
          refine ⟨hflen, hf, hN, ?_, ?_⟩
          · simp only [q1]; omega
          · simp only [q1, List.take_zero]
            symm
            apply List.drop_of_length_le
            omega
        obtain ⟨ihsome, ihpost⟩ := ih (ew + (N - q.backBufferWriteIdx)) q1 (a + 1) hew1 ht1
        constructor
        · intro hfuel
          have : q1.backBufferWriteIdx + (data.length - (ew + (N - q.backBufferWriteIdx)))
              < fuel * N := by
            rw [Nat.succ_mul] at hfuel
            simp only [q1]; omega
          obtain ⟨out, hout⟩ := ihsome this
          exact ⟨_, by rw [hloop, hout]; rfl⟩
        · intro q' evs hrun
          rw [hloop] at hrun
          cases hrec : writeLoop data fuel (ew + (N - q.backBufferWriteIdx)) q1 with
          | none => rw [hrec] at hrun; simp at hrun
          | some out =>
            obtain ⟨q2, evs2⟩ := out
            rw [hrec] at hrun
            simp only [Option.map_some', Option.some.injEq, Prod.mk.injEq] at hrun
            obtain ⟨rfl, rfl⟩ := hrun
            obtain ⟨a', hp⟩ := ihpost q2 evs2 hrec
            have hle := hp.le
            refine ⟨a', ⟨by omega, hp.tracks, ?_, ?_, ?_, fun h => by omega, ?_, ?_, ?_, ?_⟩⟩
            · have hr : a' - a = (a' - (a + 1)) + 1 := by omega
              rw [hr, List.range'_succ]
              simp [swapFrames, hp.frames, hframe]
            · simp [warnings, hp.quiet]
            · simp [consumedFrames, hp.noRead]
            · intro _
              by_cases h1 : a + 1 < a'
              · exact hp.renewed h1
              · have h2 : a' = a + 1 := by omega
                obtain ⟨e1, e2⟩ := hp.same h2
                refine ⟨by rw [e2], ?_⟩
                rw [e1, h2]
                simpa [q1] using hframe
            · have := hp.count
              simp [iterations]
              omega
            · intro p hp'
              simp [iterations] at hp'
              rcases hp' with rfl | hp'
              · simp only; omega
              · exact hp.each p hp'
            · have := hp.total
              simp [iterations, this]
              omega
    · -- nothing left to write
      have hloop := writeLoop_done data (fuel + 1) ew q hlt
      refine ⟨fun _ => ⟨_, hloop⟩, ?_⟩
      intro q' evs hrun
      rw [hloop] at hrun
      simp only [Option.some.injEq, Prod.mk.injEq] at hrun
      obtain ⟨rfl, rfl⟩ := hrun
      have hewl : ew = data.length := by omega
      subst hewl
      have ht : Tracks N (W ++ data) a q := by
        have := (show Tracks N (W ++ data.take data.length) a q from ⟨hf, hb, hc, hS, hpart⟩)
        simpa using this
      exact ⟨a, ⟨le_refl _, ht, by simp [swapFrames], rfl, rfl, fun _ => ⟨rfl, rfl⟩,
        fun h => absurd h (lt_irrefl _), by simp [iterations], by simp [iterations],
        by simp [iterations]⟩⟩

theorem frames_unique (N a c m : Nat) (h : a * N + c = m * N) (hc : c < N) :
    a = m ∧ c = 0 := by
  have ha : a = m := by
    rcases Nat.lt_trichotomy a m with hlt | heq | hgt
    · have h1 : (a + 1) * N ≤ m * N := Nat.mul_le_mul_right N hlt
      rw [Nat.succ_mul] at h1
      omega
    · exact heq
    · have h1 : (m + 1) * N ≤ a * N := Nat.mul_le_mul_right N hgt
      rw [Nat.succ_mul] at h1
      omega
  subst ha
  exact ⟨rfl, by omega⟩

theorem tracks_div_mod (N : Nat) (S : List α) (a : Nat) (q : AudioVisualizationQueue α)
    (h : Tracks N S a q) : a = S.length / N ∧ q.backBufferWriteIdx = S.length % N := by
  obtain ⟨_, _, hc, hS, _⟩ := h
  have hN : 0 < N := by omega
  constructor
  · rw [hS, Nat.add_comm, Nat.add_mul_div_right _ _ hN, Nat.div_eq_of_lt hc, Nat.zero_add]
  · rw [hS, Nat.add_comm, Nat.add_mul_mod_self_right, Nat.mod_eq_of_lt hc]

theorem fuel_enough (N fuel len c : Nat) (hc : c < N) (h : len < fuel) :
    c + len < fuel * N := by
  have h1 : (len + 1) * N ≤ fuel * N := Nat.mul_le_mul_right N h
  have h2 : len ≤ len * N := Nat.le_mul_of_pos_right len (by omega)
  rw [Nat.succ_mul] at h1
  omega

theorem tracks_construct [Inhabited α] (N : Nat) (hN : 0 < N) :
    Tracks N ([] : List α) 0 (construct N) := by
  simp [Tracks, construct, hN]

theorem map_frameAt_append (N : Nat) (W X : List α) (a : Nat) (k : Nat)
    (h : (a + k) * N ≤ W.length) :
    (List.range' a k).map (frameAt N (W ++ X)) = (List.range' a k).map (frameAt N W) := by
  apply List.map_congr_left
  intro j hj
  rw [List.mem_range'_1] at hj
  apply frameAt_append_left
  have : (j + 1) * N ≤ (a + k) * N := Nat.mul_le_mul_right N (by omega)
  omega

theorem range'_glue (a a2 a3 : Nat) (h1 : a ≤ a2) (h2 : a2 ≤ a3) :
    List.range' a (a2 - a) ++ List.range' a2 (a3 - a2) = List.range' a (a3 - a) := by
  have h := List.range'_append_1 a (a2 - a) (a3 - a2)
  rw [show a + (a2 - a) = a2 by omega, show a3 - a2 + (a2 - a) = a3 - a by omega] at h
  exact h

theorem step_tryReadInto (fuel : Nat) (q : AudioVisualizationQueue α) (ownsLock : Bool)
    (buffer : List α) :
    step fuel q (.tryReadInto ownsLock buffer) =
      if ownsLock = true ∧ q.frontBufferFilled = true then
        some ({ q with frontBuffer := buffer, frontBufferFilled := false },
          [Event.consumed q.frontBuffer])
      else some (q, [Event.missed]) := by
  cases ownsLock <;> cases h : q.frontBufferFilled <;> simp [step, tryReadInto, h]

theorem step_readIntoBlocking (fuel : Nat) (q : AudioVisualizationQueue α)
    (buffer : List α) :
    step fuel q (.readIntoBlocking buffer) =
      if q.frontBufferFilled = true then
        some ({ q with frontBuffer := buffer, frontBufferFilled := false },
          [Event.consumed q.frontBuffer])
      else none := by
  cases h : q.frontBufferFilled <;> simp [step, readIntoBlocking, h]

theorem runPost_silent (N : Nat) (S : List α) (a : Nat) (q1 : AudioVisualizationQueue α)
    (log : List (Event α)) (a1 : Nat) (evs : List (Event α))
    (h : RunPost N S a q1 log a1) (h1 : swapFrames evs = []) (h2 : warnings evs = [])
    (h3 : iterations evs = []) : RunPost N S a q1 (evs ++ log) a1 :=
  ⟨h.le, h.tracks, by rw [swapFrames_append, h1, h.frames]; rfl,
    by rw [warnings_append, h2, h.quiet]; rfl,
    by rw [iterations_append, h3]; exact h.each, h.front⟩

theorem tracks_taken (N : Nat) (S : List α) (a : Nat) (q : AudioVisualizationQueue α)
    (buffer : List α) (hb : buffer.length = N) (h : Tracks N S a q) :
    Tracks N S a { q with frontBuffer := buffer, frontBufferFilled := false } :=
  ⟨hb, h.2.1, h.2.2.1, h.2.2.2.1, h.2.2.2.2⟩

theorem run_spec (N : Nat) (hN : 0 < N) (fuel : Nat) :
    ∀ (ops : List (Call α)) (W : List α) (q : AudioVisualizationQueue α) (a : Nat),
      Tracks N W a q →
      (q.frontBufferFilled = true → 0 < a ∧ q.frontBuffer = frameAt N W (a - 1)) →
      readBuffersSized N ops →
      (writesWithin fuel ops → noBlockingRead ops → ∃ out, run fuel ops q = some out) ∧
      ∀ q1 log, run fuel ops q = some (q1, log) →
        ∃ a1, RunPost N (W ++ written ops) a q1 log a1 := by
  intro ops
  induction ops with
  | nil =>
    intro W q a ht hr _
    refine ⟨fun _ _ => ⟨_, rfl⟩, ?_⟩
    intro q1 log hrun
    simp only [run, Option.some.injEq, Prod.mk.injEq] at hrun
    obtain ⟨rfl, rfl⟩ := hrun
    refine ⟨a, ⟨le_refl _, by simpa [written] using ht, by simp [swapFrames], rfl,
      by simp [iterations], by simpa [written] using hr⟩⟩
  | cons c rest ih =>
    intro W q a ht hr hsz
    cases c with
    | writeBlocking data =>
      have ht0 : Tracks N (W ++ data.take 0) a q := by simpa using ht
      obtain ⟨ltot, lpost⟩ := writeLoop_spec N hN W data fuel 0 q a (Nat.zero_le _) ht0
      have hnext : ∀ q2 evs, writeLoop data fuel 0 q = some (q2, evs) →
          ∃ a2, LoopPost N (W ++ data) a data.length q q2 evs a2 ∧
            (q2.frontBufferFilled = true →
              0 < a2 ∧ q2.frontBuffer = frameAt N (W ++ data) (a2 - 1)) := by
        intro q2 evs h2
        obtain ⟨a2, hp⟩ := lpost q2 evs h2
        refine ⟨a2, by simpa using hp, ?_⟩
        intro hfl
        by_cases hlt : a < a2
        · exact ⟨by omega, (hp.renewed hlt).2⟩
        · have heq : a2 = a := by have := hp.le; omega
          obtain ⟨e1, e2⟩ := hp.same heq
          rw [e2] at hfl
          obtain ⟨hpos, hfr⟩ := hr hfl
          refine ⟨by omega, ?_⟩
          rw [e1, hfr, heq]
          symm
          apply frameAt_append_left
          have : a - 1 + 1 = a := by omega
          rw [this]
          have := ht.2.2.2.1
          omega
      constructor
      · intro hw hnb
        obtain ⟨hw1, hw2⟩ := hw
        obtain ⟨⟨q2, evs⟩, h2⟩ := ltot (by
          simpa using fuel_enough N fuel data.length _ ht.2.2.1 hw1)
        obtain ⟨a2, hp, hr2⟩ := hnext q2 evs h2
        obtain ⟨out, hout⟩ := (ih (W ++ data) q2 a2 hp.tracks hr2 hsz).1 hw2 hnb
        exact ⟨(out.1, evs ++ out.2), by simp [run, step, writeBlocking, h2, hout]⟩
      · intro q1 log hrun
        simp only [run, step, writeBlocking] at hrun
        cases h2 : writeLoop data fuel 0 q with
        | none => simp [h2] at hrun
        | some o2 =>
          obtain ⟨q2, evs⟩ := o2
          rw [h2] at hrun
          simp only at hrun
          cases h3 : run fuel rest q2 with
          | none => simp [h3] at hrun
          | some o3 =>
            obtain ⟨q3, log3⟩ := o3
            rw [h3] at hrun
            simp only [Option.map_some', Option.some.injEq, Prod.mk.injEq] at hrun
            obtain ⟨rfl, rfl⟩ := hrun
            obtain ⟨a2, hp, hr2⟩ := hnext q2 evs h2
            obtain ⟨_, ihpost⟩ := ih (W ++ data) q2 a2 hp.tracks hr2 hsz
            obtain ⟨a3, hp3⟩ := ihpost q3 log3 h3
            have hle2 := hp.le
            have hle3 := hp3.le
            have hstream : W ++ written (Call.writeBlocking data :: rest)
                = (W ++ data) ++ written rest := by
              simp [written]
            rw [hstream]
            refine ⟨a3, ⟨by omega, hp3.tracks, ?_, ?_, ?_, hp3.front⟩⟩
            · rw [swapFrames_append, hp.frames, hp3.frames]
              have hlen := hp.tracks.2.2.2.1
              rw [← map_frameAt_append N (W ++ data) (written rest) a (a2 - a) (by
                have : a + (a2 - a) = a2 := by omega
                rw [this]; omega)]
              rw [← List.map_append]
              rw [range'_glue a a2 a3 hle2 hle3]
            · rw [warnings_append, hp.quiet, hp3.quiet]; rfl
            · intro p hp'
              rw [iterations_append, List.mem_append] at hp'
              rcases hp' with h | h
              · exact hp.each p h
              · exact hp3.each p h
    | tryReadInto ownsLock buffer =>
      obtain ⟨hbuf, hsz⟩ := hsz
      have hstream : written (Call.tryReadInto ownsLock buffer :: rest) = written rest := rfl
      rw [hstream]
      by_cases hc : ownsLock = true ∧ q.frontBufferFilled = true
      · have hstep := step_tryReadInto fuel q ownsLock buffer
        rw [if_pos hc] at hstep
        obtain ⟨itot, ipost⟩ := ih W _ a (tracks_taken N W a q buffer hbuf ht)
          (fun h => by simp at h) hsz
        constructor
        · intro hw hnb
          obtain ⟨out, hout⟩ := itot hw hnb
          exact ⟨(out.1, [Event.consumed q.frontBuffer] ++ out.2),
            by simp [run, hstep, hout]⟩
        · intro q1 log hrun
          simp only [run, hstep] at hrun
          cases h3 : run fuel rest
              { q with frontBuffer := buffer, frontBufferFilled := false } with
          | none => simp [h3] at hrun
          | some o3 =>
            obtain ⟨q3, log3⟩ := o3
            rw [h3] at hrun
            simp only [Option.map_some', Option.some.injEq, Prod.mk.injEq] at hrun
            obtain ⟨rfl, rfl⟩ := hrun
            obtain ⟨a3, hp3⟩ := ipost q3 log3 h3
            exact ⟨a3, runPost_silent N _ a q3 log3 a3 _ hp3 rfl rfl rfl⟩
      · have hstep := step_tryReadInto fuel q ownsLock buffer
        rw [if_neg hc] at hstep
        obtain ⟨itot, ipost⟩ := ih W q a ht hr hsz
        constructor
        · intro hw hnb
          obtain ⟨out, hout⟩ := itot hw hnb
          exact ⟨(out.1, [Event.missed] ++ out.2), by simp [run, hstep, hout]⟩
        · intro q1 log hrun
          simp only [run, hstep] at hrun
          cases h3 : run fuel rest q with
          | none => simp [h3] at hrun
          | some o3 =>
            obtain ⟨q3, log3⟩ := o3
            rw [h3] at hrun
            simp only [Option.map_some', Option.some.injEq, Prod.mk.injEq] at hrun
            obtain ⟨rfl, rfl⟩ := hrun
            obtain ⟨a3, hp3⟩ := ipost q3 log3 h3
            exact ⟨a3, runPost_silent N _ a q3 log3 a3 _ hp3 rfl rfl rfl⟩
    | readIntoBlocking buffer =>
      obtain ⟨hbuf, hsz⟩ := hsz
      have hstream : written (Call.readIntoBlocking buffer :: rest) = written rest := rfl
      rw [hstream]
      refine ⟨fun _ hnb => absurd hnb (by simp [noBlockingRead]), ?_⟩
      intro q1 log hrun
      have hstep := step_readIntoBlocking fuel q buffer
      by_cases hc : q.frontBufferFilled = true
      · rw [if_pos hc] at hstep
        obtain ⟨_, ipost⟩ := ih W _ a (tracks_taken N W a q buffer hbuf ht)
          (fun h => by simp at h) hsz
        simp only [run, hstep] at hrun
        cases h3 : run fuel rest
            { q with frontBuffer := buffer, frontBufferFilled := false } with
        | none => simp [h3] at hrun
        | some o3 =>
          obtain ⟨q3, log3⟩ := o3
          rw [h3] at hrun
          simp only [Option.map_some', Option.some.injEq, Prod.mk.injEq] at hrun
          obtain ⟨rfl, rfl⟩ := hrun
          obtain ⟨a3, hp3⟩ := ipost q3 log3 h3
          exact ⟨a3, runPost_silent N _ a q3 log3 a3 _ hp3 rfl rfl rfl⟩
      · rw [if_neg hc] at hstep
        simp [run, hstep] at hrun

/-! ### The front-ready flag along a trace -/

theorem flagAfter_append (b : Bool) (l1 l2 : List (Event α)) :
    flagAfter b (l1 ++ l2) = flagAfter (flagAfter b l1) l2 := by
  induction l1 generalizing b with
  | nil => rfl
  | cons e l ih => cases e <;> simp [flagAfter, ih]

theorem flagAfter_eq (b : Bool) (log : List (Event α)) :
    flagAfter b log =
      if (consumedFrames log).isEmpty then (b || swapSinceLastRead log)
      else swapSinceLastRead log := by
  induction log generalizing b with
  | nil => simp [flagAfter, consumedFrames, swapSinceLastRead]
  | cons e l ih =>
    cases e with
    | warning n => simpa [flagAfter, consumedFrames, swapSinceLastRead] using ih b
    | iteration n c => simpa [flagAfter, consumedFrames, swapSinceLastRead] using ih b
    | missed => simpa [flagAfter, consumedFrames, swapSinceLastRead] using ih b
    | swapped f =>
      rw [flagAfter, ih true]
      by_cases h : (consumedFrames l).isEmpty = true <;>
        simp [consumedFrames, swapSinceLastRead, h]
    | consumed f =>
      rw [flagAfter, ih false]
      by_cases h : (consumedFrames l).isEmpty = true <;>
        simp [consumedFrames, swapSinceLastRead, h]

theorem fillBackBuffer_flag (q : AudioVisualizationQueue α) (data : List α) (ew : Nat)
    (r : Filled α) (h : fillBackBuffer q data ew = some r) :
    r.queue.frontBufferFilled = q.frontBufferFilled ∧
    r.queue.frontBuffer = q.frontBuffer ∧
    (∀ b, flagAfter b r.events = b) ∧ consumedFrames r.events = [] ∧
    swapFrames r.events = [] := by
  unfold fillBackBuffer at h
  split at h
  · simp at h
  · simp only at h
    split at h
    · simp only [Option.some.injEq] at h
      subst h
      refine ⟨rfl, rfl, ?_, ?_, ?_⟩
      · intro b
        split <;> simp [flagAfter]
      · split <;> simp [consumedFrames]
      · split <;> simp [swapFrames]
    · simp only [Option.some.injEq] at h
      subst h
      exact ⟨rfl, rfl, fun b => by simp [flagAfter], by simp [consumedFrames],
        by simp [swapFrames]⟩

theorem writeLoop_flag (data : List α) :
    ∀ (fuel ew : Nat) (q q1 : AudioVisualizationQueue α) (evs : List (Event α)),
      writeLoop data fuel ew q = some (q1, evs) →
      q1.frontBufferFilled = flagAfter q.frontBufferFilled evs ∧
      consumedFrames evs = [] := by
  intro fuel
  induction fuel with
  | zero =>
    intro ew q q1 evs h
    by_cases hlt : ew < data.length
    · simp [writeLoop, hlt] at h
    · simp [writeLoop, hlt] at h
      obtain ⟨rfl, rfl⟩ := h
      exact ⟨rfl, rfl⟩
  | succ fuel ih =>
    intro ew q q1 evs h
    by_cases hlt : ew < data.length
    · rw [writeLoop, if_pos hlt] at h
      cases hfill : fillBackBuffer q data ew with
      | none => simp [hfill] at h
      | some r =>
        obtain ⟨f1, _, f3, f4, _⟩ := fillBackBuffer_flag q data ew r hfill
        rw [hfill] at h
        simp only at h
        by_cases hfull : r.full = true
        · rw [if_pos hfull] at h
          cases hrec : writeLoop data fuel r.elementsWritten (swapBuffersBlocking r.queue) with
          | none => simp [hrec] at h
          | some o =>
            obtain ⟨q2, evs2⟩ := o
            rw [hrec] at h
            simp only [Option.map_some', Option.some.injEq, Prod.mk.injEq] at h
            obtain ⟨rfl, rfl⟩ := h
            obtain ⟨i1, i2⟩ := ih _ _ _ _ hrec
            constructor
            · rw [flagAfter_append, f3, flagAfter, i1]
              rfl
            · rw [consumedFrames_append, f4]
              simpa [consumedFrames] using i2
        · rw [if_neg hfull] at h
          cases hrec : writeLoop data fuel r.elementsWritten r.queue with
          | none => simp [hrec] at h
          | some o =>
            obtain ⟨q2, evs2⟩ := o
            rw [hrec] at h
            simp only [Option.map_some', Option.some.injEq, Prod.mk.injEq] at h
            obtain ⟨rfl, rfl⟩ := h
            obtain ⟨i1, i2⟩ := ih _ _ _ _ hrec
            constructor
            · rw [flagAfter_append, f3, i1, f1]
            · rw [consumedFrames_append, f4]
              simpa using i2
    · rw [writeLoop_done data (fuel + 1) ew q hlt] at h
      simp only [Option.some.injEq, Prod.mk.injEq] at h
      obtain ⟨rfl, rfl⟩ := h
      exact ⟨rfl, rfl⟩

theorem run_flag (fuel : Nat) :
    ∀ (ops : List (Call α)) (q q1 : AudioVisualizationQueue α) (log : List (Event α)),
      run fuel ops q = some (q1, log) →
      q1.frontBufferFilled = flagAfter q.frontBufferFilled log ∧
      (noBlockingRead ops → (∀ c ∈ ops, ∃ data, c = Call.writeBlocking data) →
        consumedFrames log = []) := by
  intro ops
  induction ops with
  | nil =>
    intro q q1 log h
    simp only [run, Option.some.injEq, Prod.mk.injEq] at h
    obtain ⟨rfl, rfl⟩ := h
    exact ⟨rfl, fun _ _ => rfl⟩
  | cons c rest ih =>
    intro q q1 log h
    rw [run] at h
    cases hs : step fuel q c with
    | none => simp [hs] at h
    | some o =>
      obtain ⟨q2, evs⟩ := o
      rw [hs] at h
      simp only at h
      cases hrec : run fuel rest q2 with
      | none => simp [hrec] at h
      | some o3 =>
        obtain ⟨q3, log3⟩ := o3
        rw [hrec] at h
        simp only [Option.map_some', Option.some.injEq, Prod.mk.injEq] at h
        obtain ⟨rfl, rfl⟩ := h
        obtain ⟨i1, i2⟩ := ih _ _ _ hrec
        have hstepflag : q2.frontBufferFilled = flagAfter q.frontBufferFilled evs ∧
            ((∃ data, c = Call.writeBlocking data) → consumedFrames evs = []) := by
          cases c with
          | writeBlocking data =>
            obtain ⟨w1, w2⟩ := writeLoop_flag data fuel 0 q q2 evs hs
            exact ⟨w1, fun _ => w2⟩
          | tryReadInto ownsLock buffer =>
            rw [step_tryReadInto] at hs
            split at hs <;>
              (simp only [Option.some.injEq, Prod.mk.injEq] at hs
               obtain ⟨rfl, rfl⟩ := hs
               exact ⟨by simp [flagAfter], fun ⟨d, hd⟩ => by cases hd⟩)
          | readIntoBlocking buffer =>
            rw [step_readIntoBlocking] at hs
            split at hs
            · simp only [Option.some.injEq, Prod.mk.injEq] at hs
              obtain ⟨rfl, rfl⟩ := hs
              exact ⟨by simp [flagAfter], fun ⟨d, hd⟩ => by cases hd⟩
            · simp at hs
        constructor
        · rw [flagAfter_append, ← hstepflag.1, i1]
        · intro hnb hall
          rw [consumedFrames_append]
          have hc : ∃ data, c = Call.writeBlocking data := hall c (List.mem_cons_self _ _)
          obtain ⟨d, rfl⟩ := hc
          rw [hstepflag.2 ⟨d, rfl⟩, i2 hnb (fun c hc => hall c (List.mem_cons_of_mem _ hc))]
          rfl

/-! ### Schedules -/

theorem run_append (fuel : Nat) :
    ∀ (pre suf : List (Call α)) (q q1 : AudioVisualizationQueue α) (log : List (Event α)),
      run fuel (pre ++ suf) q = some (q1, log) →
      ∃ q0 log0 log1, run fuel pre q = some (q0, log0) ∧
        run fuel suf q0 = some (q1, log1) ∧ log = log0 ++ log1 := by
  intro pre
  induction pre with
  | nil =>
    intro suf q q1 log h
    exact ⟨q, [], log, rfl, by simpa using h, rfl⟩
  | cons c rest ih =>
    intro suf q q1 log h
    rw [List.cons_append, run] at h
    cases hs : step fuel q c with
    | none => simp [hs] at h
    | some o =>
      obtain ⟨q2, evs⟩ := o
      rw [hs] at h
      simp only at h
      cases hrec : run fuel (rest ++ suf) q2 with
      | none => simp [hrec] at h
      | some o3 =>
        obtain ⟨q3, log3⟩ := o3
        rw [hrec] at h
        simp only [Option.map_some', Option.some.injEq, Prod.mk.injEq] at h
        obtain ⟨rfl, rfl⟩ := h
        obtain ⟨q0, log0, log1, h0, h1, rfl⟩ := ih suf q2 q3 log3 hrec
        exact ⟨q0, evs ++ log0, log1, by simp [run, hs, h0], h1, by simp⟩

theorem readBuffersSized_append (N : Nat) (pre suf : List (Call α))
    (h : readBuffersSized N (pre ++ suf)) : readBuffersSized N pre := by
  induction pre with
  | nil => trivial
  | cons c rest ih =>
    cases c with
    | writeBlocking data => exact ih h
    | tryReadInto ownsLock buffer => exact ⟨h.1, ih h.2⟩
    | readIntoBlocking buffer => exact ⟨h.1, ih h.2⟩

theorem divmod_unique (N a c m d : Nat) (h : a * N + c = m * N + d) (hc : c < N)
    (hd : d < N) : a = m ∧ c = d := by
  have ha : a = m := by
    rcases Nat.lt_trichotomy a m with hlt | heq | hgt
    · have h1 : (a + 1) * N ≤ m * N := Nat.mul_le_mul_right N hlt
      rw [Nat.succ_mul] at h1
      omega
    · exact heq
    · have h1 : (m + 1) * N ≤ a * N := Nat.mul_le_mul_right N hgt
      rw [Nat.succ_mul] at h1
      omega
  subst ha
  exact ⟨rfl, by omega⟩

theorem lt_succ_div_mul (x N : Nat) (hN : 0 < N) : x < (x / N + 1) * N := by
  have h1 := Nat.div_add_mod x N
  have h2 := Nat.mod_lt x hN
  rw [Nat.succ_mul, Nat.mul_comm]
  omega

/-- A state whose slots have length `N` and whose cursor is below `N` tracks the
stream made of the part of the back slot below the cursor. -/
theorem tracks_self (N : Nat) (q : AudioVisualizationQueue α)
    (hf : q.frontBuffer.length = N) (hb : q.backBuffer.length = N)
    (hc : q.backBufferWriteIdx < N) :
    Tracks N (q.backBuffer.take q.backBufferWriteIdx) 0 q := by
  refine ⟨hf, hb, hc, ?_, by simp⟩
  simp [hb]
  omega

theorem written_writes (N fuel : Nat) (writes : List (List α))
    (hfuel : ∀ d ∈ writes, d.length < fuel) :
    noBlockingRead (writes.map Call.writeBlocking) ∧
    readBuffersSized N (writes.map Call.writeBlocking) ∧
    (∀ c ∈ writes.map Call.writeBlocking, ∃ data, c = Call.writeBlocking data) ∧
    writesWithin fuel (writes.map Call.writeBlocking) ∧
    written (writes.map Call.writeBlocking) = writes.flatten := by
  induction writes with
  | nil => exact ⟨trivial, trivial, by simp, trivial, rfl⟩
  | cons d rest ih =>
    obtain ⟨i1, i2, i3, i4, i5⟩ := ih (fun d hd => hfuel d (List.mem_cons_of_mem _ hd))
    refine ⟨i1, i2, ?_, ⟨hfuel d (List.mem_cons_self _ _), i4⟩, ?_⟩
    · intro c hc
      simp only [List.map_cons, List.mem_cons] at hc
      rcases hc with rfl | hc
      · exact ⟨d, rfl⟩
      · exact i3 c hc
    · simp only [List.map_cons, written, i5, List.flatten_cons]

theorem swapSinceLastRead_of_noRead (log : List (Event α)) (h : consumedFrames log = []) :
    swapSinceLastRead log = !(swapFrames log).isEmpty := by
  induction log with
  | nil => rfl
  | cons e l ih =>
    cases e with
    | warning n => simpa [swapSinceLastRead, swapFrames] using ih (by simpa [consumedFrames] using h)
    | iteration n c => simpa [swapSinceLastRead, swapFrames] using ih (by simpa [consumedFrames] using h)
    | missed => simpa [swapSinceLastRead, swapFrames] using ih (by simpa [consumedFrames] using h)
    | swapped f =>
      have h1 : consumedFrames l = [] := by simpa [consumedFrames] using h
      simp [swapSinceLastRead, swapFrames, h1]
    | consumed f => simp [consumedFrames] at h


/-! ### One `writeBlocking` call on a well-formed state -/

theorem writeBlocking_spec (N : Nat) (hN : 0 < N) (fuel : Nat)
    (q : AudioVisualizationQueue α) (data : List α)
    (hf : q.frontBuffer.length = N) (hb : q.backBuffer.length = N)
    (hc : q.backBufferWriteIdx < N)
    (hfuel : q.backBufferWriteIdx + data.length < fuel * N) :
    ∃ q1 evs a1, writeBlocking fuel q data = some (q1, evs) ∧
      LoopPost N (q.backBuffer.take q.backBufferWriteIdx ++ data) 0 data.length q q1 evs a1 := by
  have ht : Tracks N (q.backBuffer.take q.backBufferWriteIdx ++ data.take 0) 0 q := by
    simpa using tracks_self N q hf hb hc
  obtain ⟨htot, hpost⟩ := writeLoop_spec N hN (q.backBuffer.take q.backBufferWriteIdx) data
    fuel 0 q 0 (Nat.zero_le _) ht
  obtain ⟨⟨q1, evs⟩, hrun⟩ := htot (by simpa using hfuel)
  obtain ⟨a1, hp⟩ := hpost q1 evs hrun
  exact ⟨q1, evs, a1, hrun, by simpa using hp⟩

theorem writeLoop_mono (data : List α) :
    ∀ (fuel ew : Nat) (q : AudioVisualizationQueue α)
      (out : AudioVisualizationQueue α × List (Event α)),
      writeLoop data fuel ew q = some out → writeLoop data (fuel + 1) ew q = some out := by
  intro fuel
  induction fuel with
  | zero =>
    intro ew q out h
    by_cases hlt : ew < data.length
    · simp [writeLoop, hlt] at h
    · rw [writeLoop_done data _ ew q hlt] at *
      exact h
  | succ fuel ih =>
    intro ew q out h
    by_cases hlt : ew < data.length
    · rw [writeLoop, if_pos hlt] at h
      rw [writeLoop, if_pos hlt]
      cases hfill : fillBackBuffer q data ew with
      | none => simp [hfill] at h
      | some r =>
        rw [hfill] at h
        simp only at h ⊢
        by_cases hfull : r.full = true
        · rw [if_pos hfull] at h ⊢
          cases hrec : writeLoop data fuel r.elementsWritten (swapBuffersBlocking r.queue) with
          | none => simp [hrec] at h
          | some o =>
            rw [hrec] at h
            rw [ih _ _ _ hrec]
            exact h
        · rw [if_neg hfull] at h ⊢
          cases hrec : writeLoop data fuel r.elementsWritten r.queue with
          | none => simp [hrec] at h
          | some o =>
            rw [hrec] at h
            rw [ih _ _ _ hrec]
            exact h
    · rw [writeLoop_done data _ ew q hlt] at *
      exact h

theorem writeLoop_mono_le (data : List α) (fuel fuel1 ew : Nat)
    (q : AudioVisualizationQueue α) (out : AudioVisualizationQueue α × List (Event α))
    (hle : fuel ≤ fuel1) (h : writeLoop data fuel ew q = some out) :
    writeLoop data fuel1 ew q = some out := by
  induction hle with
  | refl => exact h
  | step _ ih => exact writeLoop_mono data _ ew q out ih

/-! ### Slot lengths, without an assumption on `N` -/

theorem fillBackBuffer_length (q : AudioVisualizationQueue α) (data : List α) (ew : Nat)
    (r : Filled α) (h : fillBackBuffer q data ew = some r) :
    r.queue.backBuffer.length = q.backBuffer.length ∧
    r.queue.frontBuffer = q.frontBuffer := by
  unfold fillBackBuffer at h
  split at h
  · simp at h
  · rename_i hle
    simp only at h
    have hlen : (List.take q.backBufferWriteIdx q.backBuffer ++
        List.take (min (q.backBuffer.length - q.backBufferWriteIdx) (data.length - ew))
          (List.drop ew data) ++
        List.drop (q.backBufferWriteIdx +
          min (q.backBuffer.length - q.backBufferWriteIdx) (data.length - ew)) q.backBuffer).length
        = q.backBuffer.length := by
      simp only [List.length_append, List.length_take, List.length_drop]
      omega
    split at h <;>
      (simp only [Option.some.injEq] at h
       subst h
       exact ⟨hlen, rfl⟩)

theorem writeLoop_length (N : Nat) (data : List α) :
    ∀ (fuel ew : Nat) (q q1 : AudioVisualizationQueue α) (evs : List (Event α)),
      q.frontBuffer.length = N → q.backBuffer.length = N →
      writeLoop data fuel ew q = some (q1, evs) →
      q1.frontBuffer.length = N ∧ q1.backBuffer.length = N := by
  intro fuel
  induction fuel with
  | zero =>
    intro ew q q1 evs hf hb h
    by_cases hlt : ew < data.length
    · simp [writeLoop, hlt] at h
    · simp [writeLoop, hlt] at h
      obtain ⟨rfl, rfl⟩ := h
      exact ⟨hf, hb⟩
  | succ fuel ih =>
    intro ew q q1 evs hf hb h
    by_cases hlt : ew < data.length
    · rw [writeLoop, if_pos hlt] at h
      cases hfill : fillBackBuffer q data ew with
      | none => simp [hfill] at h
      | some r =>
        obtain ⟨l1, l2⟩ := fillBackBuffer_length q data ew r hfill
        rw [hfill] at h
        simp only at h
        by_cases hfull : r.full = true
        · rw [if_pos hfull] at h
          cases hrec : writeLoop data fuel r.elementsWritten (swapBuffersBlocking r.queue) with
          | none => simp [hrec] at h
          | some o =>
            obtain ⟨q2, evs2⟩ := o
            rw [hrec] at h
            simp only [Option.map_some', Option.some.injEq, Prod.mk.injEq] at h
            obtain ⟨rfl, rfl⟩ := h
            exact ih _ _ _ _ (by simp [swapBuffersBlocking, l1, hb])
              (by simp [swapBuffersBlocking, l2, hf]) hrec
        · rw [if_neg hfull] at h
          cases hrec : writeLoop data fuel r.elementsWritten r.queue with
          | none => simp [hrec] at h
          | some o =>
            obtain ⟨q2, evs2⟩ := o
            rw [hrec] at h
            simp only [Option.map_some', Option.some.injEq, Prod.mk.injEq] at h
            obtain ⟨rfl, rfl⟩ := h
            exact ih _ _ _ _ (by rw [l2, hf]) (by rw [l1, hb]) hrec
    · rw [writeLoop_done data (fuel + 1) ew q hlt] at h
      simp only [Option.some.injEq, Prod.mk.injEq] at h
      obtain ⟨rfl, rfl⟩ := h
      exact ⟨hf, hb⟩

theorem run_length (N fuel : Nat) :
    ∀ (ops : List (Call α)) (q q1 : AudioVisualizationQueue α) (log : List (Event α)),
      q.frontBuffer.length = N → q.backBuffer.length = N → readBuffersSized N ops →
      run fuel ops q = some (q1, log) →
      q1.frontBuffer.length = N ∧ q1.backBuffer.length = N := by
  intro ops
  induction ops with
  | nil =>
    intro q q1 log hf hb _ h
    simp only [run, Option.some.injEq, Prod.mk.injEq] at h
    obtain ⟨rfl, rfl⟩ := h
    exact ⟨hf, hb⟩
  | cons c rest ih =>
    intro q q1 log hf hb hsz h
    rw [run] at h
    cases hs : step fuel q c with
    | none => simp [hs] at h
    | some o =>
      obtain ⟨q2, evs⟩ := o
      rw [hs] at h
      simp only at h
      cases hrec : run fuel rest q2 with
      | none => simp [hrec] at h
      | some o3 =>
        obtain ⟨q3, log3⟩ := o3
        rw [hrec] at h
        simp only [Option.map_some', Option.some.injEq, Prod.mk.injEq] at h
        obtain ⟨rfl, rfl⟩ := h
        cases c with
        | writeBlocking data =>
          obtain ⟨l1, l2⟩ := writeLoop_length N data fuel 0 q q2 evs hf hb hs
          exact ih _ _ _ l1 l2 hsz hrec
        | tryReadInto ownsLock buffer =>
          rw [step_tryReadInto] at hs
          split at hs <;>
            (simp only [Option.some.injEq, Prod.mk.injEq] at hs
             obtain ⟨rfl, rfl⟩ := hs)
          · exact ih { q with frontBuffer := buffer, frontBufferFilled := false } _ _
              hsz.1 hb hsz.2 hrec
          · exact ih _ _ _ hf hb hsz.2 hrec
        | readIntoBlocking buffer =>
          rw [step_readIntoBlocking] at hs
          split at hs
          · simp only [Option.some.injEq, Prod.mk.injEq] at hs
            obtain ⟨rfl, rfl⟩ := hs
            exact ih { q with frontBuffer := buffer, frontBufferFilled := false } _ _
              hsz.1 hb hsz.2 hrec
          · simp at hs


/-! ### The lock-level layer refines the call-level layer -/

theorem Machine.run_cons (mv : Move α) (rest : List (Move α)) (m m1 m2 : Machine α)
    (evs log : List (Event α)) (h1 : m.move mv = some (m1, evs))
    (h2 : Machine.run rest m1 = some (m2, log)) :
    Machine.run (mv :: rest) m = some (m2, evs ++ log) := by
  simp [Machine.run, h1, h2]

/-- A completed `writeBlocking` loop is a run of producer moves from the loop
condition to the return, with the same final queue and the same trace. -/
theorem writeLoop_refines (data : List α) :
    ∀ (fuel ew : Nat) (q q1 : AudioVisualizationQueue α) (evs : List (Event α)),
      writeLoop data fuel ew q = some (q1, evs) →
      ∃ n, Machine.run (List.replicate n Move.advance) ⟨q, Producer.locked data ew⟩
        = some (⟨q1, Producer.idle⟩, evs) := by
  have hdone : ∀ (ew : Nat) (q : AudioVisualizationQueue α), ¬ ew < data.length →
      Machine.run (List.replicate 1 Move.advance) ⟨q, Producer.locked data ew⟩
        = some (⟨q, Producer.idle⟩, []) := by
    intro ew q hlt
    simp [Machine.run, Machine.move, hlt]
  intro fuel
  induction fuel with
  | zero =>
    intro ew q q1 evs h
    by_cases hlt : ew < data.length
    · simp [writeLoop, hlt] at h
    · simp [writeLoop, hlt] at h
      obtain ⟨rfl, rfl⟩ := h
      exact ⟨1, hdone ew q hlt⟩
  | succ fuel ih =>
    intro ew q q1 evs h
    by_cases hlt : ew < data.length
    · rw [writeLoop, if_pos hlt] at h
      cases hfill : fillBackBuffer q data ew with
      | none => simp [hfill] at h
      | some r =>
        rw [hfill] at h
        simp only at h
        by_cases hfull : r.full = true
        · rw [if_pos hfull] at h
          cases hrec : writeLoop data fuel r.elementsWritten (swapBuffersBlocking r.queue) with
          | none => simp [hrec] at h
          | some o =>
            obtain ⟨q2, evs2⟩ := o
            rw [hrec] at h
            simp only [Option.map_some', Option.some.injEq, Prod.mk.injEq] at h
            obtain ⟨rfl, rfl⟩ := h
            have hm1 : Machine.move ⟨q, Producer.locked data ew⟩ Move.advance
                = some (⟨r.queue, Producer.released data r.elementsWritten⟩, r.events) := by
              simp [Machine.move, hlt, hfill, hfull]
            have hm2 : Machine.move ⟨r.queue, Producer.released data r.elementsWritten⟩
                Move.advance
                = some (⟨swapBuffersBlocking r.queue,
                    Producer.swapped data r.elementsWritten⟩,
                  [Event.swapped (swapBuffersBlocking r.queue).frontBuffer]) := by
              simp [Machine.move]
            by_cases hmore : r.elementsWritten < data.length
            · obtain ⟨n, hn⟩ := ih _ _ _ _ hrec
              have hm3 : Machine.move
                  ⟨swapBuffersBlocking r.queue, Producer.swapped data r.elementsWritten⟩
                  Move.advance
                  = some (⟨swapBuffersBlocking r.queue,
                      Producer.locked data r.elementsWritten⟩, []) := by
                simp [Machine.move, hmore]
              refine ⟨n + 3, ?_⟩
              have := Machine.run_cons _ _ _ _ _ _ _ hm1
                (Machine.run_cons _ _ _ _ _ _ _ hm2 (Machine.run_cons _ _ _ _ _ _ _ hm3 hn))
              simpa [List.replicate_succ] using this
            · rw [writeLoop_done data fuel _ _ hmore] at hrec
              simp only [Option.some.injEq, Prod.mk.injEq] at hrec
              obtain ⟨rfl, rfl⟩ := hrec
              have hm3 : Machine.move
                  ⟨swapBuffersBlocking r.queue, Producer.swapped data r.elementsWritten⟩
                  Move.advance
                  = some (⟨swapBuffersBlocking r.queue, Producer.idle⟩, []) := by
                simp [Machine.move, hmore]
              refine ⟨3, ?_⟩
              have := Machine.run_cons _ _ _ _ _ _ _ hm1
                (Machine.run_cons _ _ _ _ _ _ _ hm2
                  (Machine.run_cons _ [] _ _ _ _ _ hm3 rfl))
              simpa [List.replicate_succ] using this
        · rw [if_neg hfull] at h
          cases hrec : writeLoop data fuel r.elementsWritten r.queue with
          | none => simp [hrec] at h
          | some o =>
            obtain ⟨q2, evs2⟩ := o
            rw [hrec] at h
            simp only [Option.map_some', Option.some.injEq, Prod.mk.injEq] at h
            obtain ⟨rfl, rfl⟩ := h
            have hm1 : Machine.move ⟨q, Producer.locked data ew⟩ Move.advance
                = some (⟨r.queue, Producer.locked data r.elementsWritten⟩, r.events) := by
              simp [Machine.move, hlt, hfill, hfull]
            obtain ⟨n, hn⟩ := ih _ _ _ _ hrec
            exact ⟨n + 1, by
              simpa [List.replicate_succ] using Machine.run_cons _ _ _ _ _ _ _ hm1 hn⟩
    · rw [writeLoop_done data (fuel + 1) ew q hlt] at h
      simp only [Option.some.injEq, Prod.mk.injEq] at h
      obtain ⟨rfl, rfl⟩ := h
      exact ⟨1, hdone ew q hlt⟩

/-- Every completed call of the call-level layer is a run of the lock-level layer
that starts and ends with the producer outside `writeBlocking`; a `tryReadInto` made
while the producer is idle acquires the lock. -/
theorem step_refines (fuel : Nat) (q q1 : AudioVisualizationQueue α) (c : Call α)
    (evs : List (Event α)) (h : step fuel q c = some (q1, evs))
    (hlock : ∀ ownsLock buffer, c = Call.tryReadInto ownsLock buffer → ownsLock = true) :
    ∃ moves, Machine.run moves ⟨q, Producer.idle⟩ = some (⟨q1, Producer.idle⟩, evs) := by
  cases c with
  | writeBlocking data =>
    obtain ⟨n, hn⟩ := writeLoop_refines data fuel 0 q q1 evs h
    refine ⟨Move.call data :: List.replicate n Move.advance, ?_⟩
    have hcall : Machine.move ⟨q, Producer.idle⟩ (Move.call data)
        = some (⟨q, Producer.locked data 0⟩, []) := rfl
    simpa using Machine.run_cons _ _ _ _ _ _ _ hcall hn
  | tryReadInto ownsLock buffer =>
    have hown := hlock ownsLock buffer rfl
    subst hown
    refine ⟨[Move.tryReadInto buffer], ?_⟩
    cases hflag : q.frontBufferFilled <;>
      simp [step, tryReadInto, hflag] at h <;>
      obtain ⟨rfl, rfl⟩ := h <;>
      simp [Machine.run, Machine.move, tryReadInto, Producer.holdsMutex, hflag]
  | readIntoBlocking buffer =>
    refine ⟨[Move.readIntoBlocking buffer], ?_⟩
    cases hflag : q.frontBufferFilled <;>
      simp [step, readIntoBlocking, hflag] at h
    obtain ⟨rfl, rfl⟩ := h
    simp [Machine.run, Machine.move, readIntoBlocking, Producer.holdsMutex, hflag]

end Lemmas

/-! ## The properties of the specification -/

section Claims

variable {α : Type}

/-- C1 (frame integrity).  On a freshly constructed queue with `N > 0`, for every
schedule of `writeBlocking` calls writing `m * N` samples in total, with reads in
between whose buffers have length `N`: the schedule completes whenever it has no
blocking read and the iteration budget exceeds each batch; and whenever it completes,
exactly `m` role swaps occur, the `j`-th swap making samples `[j * N, (j + 1) * N)` of
the concatenated written data the front buffer.  After every initial segment of the
schedule the number of swaps is the number of frames completed so far, so a swap
happens exactly at the call that completes a frame. -/
theorem frame_integrity [Inhabited α] (N m fuel : Nat) (ops : List (Call α))
    (hN : 0 < N) (hsz : readBuffersSized N ops) (hm : (written ops).length = m * N) :
    (writesWithin fuel ops → noBlockingRead ops →
      ∃ out, run fuel ops (construct N) = some out) ∧
    ∀ q log, run fuel ops (construct N) = some (q, log) →
      swapFrames log = (List.range m).map (frameAt N (written ops)) ∧
      ∀ pre suf, ops = pre ++ suf →
        ∃ q0 log0, run fuel pre (construct N) = some (q0, log0) ∧
          (swapFrames log0).length = (written pre).length / N := by
  have hstart : (construct N : AudioVisualizationQueue α).frontBufferFilled = true →
      0 < 0 ∧ (construct N : AudioVisualizationQueue α).frontBuffer
        = frameAt N ([] : List α) (0 - 1) := by
    intro h; simp [construct] at h
  obtain ⟨htot, hpost⟩ := run_spec N hN fuel ops [] (construct N) 0
    (tracks_construct N hN) hstart hsz
  refine ⟨htot, ?_⟩
  intro q log hrun
  obtain ⟨a1, hp⟩ := hpost q log hrun
  rw [List.nil_append] at hp
  have hlen := hp.tracks.2.2.2.1
  rw [hm] at hlen
  obtain ⟨ha, _⟩ := frames_unique N a1 _ m hlen.symm hp.tracks.2.2.1
  subst ha
  refine ⟨by rw [hp.frames, List.range_eq_range']; rfl, ?_⟩
  intro pre suf hsplit
  subst hsplit
  obtain ⟨q0, log0, log1, h0, _, _⟩ := run_append fuel pre suf (construct N) q log hrun
  obtain ⟨_, hpost0⟩ := run_spec N hN fuel pre [] (construct N) 0
    (tracks_construct N hN) hstart (readBuffersSized_append N pre suf hsz)
  obtain ⟨a0, hp0⟩ := hpost0 q0 log0 h0
  rw [List.nil_append] at hp0
  refine ⟨q0, log0, h0, ?_⟩
  rw [hp0.frames, List.length_map, List.length_range', ← (tracks_div_mod N _ a0 q0 hp0.tracks).1]
  rfl

/-- Witness for C1: `N = 4`, write `[1,2]`, then `[3,4]`, then a blocking read.  No
swap after the first call, one swap after the second, and the read returns
`[1,2,3,4]`. -/
theorem frame_integrity_witness :
    (∃ q0 log0, run 3 [Call.writeBlocking [1, 2]] (construct 4 : AudioVisualizationQueue Nat)
        = some (q0, log0) ∧ (swapFrames log0).length = 2 / 4) ∧
    run 3 [Call.writeBlocking [1, 2], Call.writeBlocking [3, 4],
        Call.readIntoBlocking [0, 0, 0, 0]] (construct 4 : AudioVisualizationQueue Nat)
      = some (⟨[0, 0, 0, 0], [0, 0, 0, 0], false, 0⟩,
          [Event.iteration 2 2, Event.iteration 2 0, Event.swapped [1, 2, 3, 4],
            Event.consumed [1, 2, 3, 4]]) ∧
    swapFrames ([Event.iteration 2 2, Event.iteration 2 0, Event.swapped [1, 2, 3, 4],
        Event.consumed [1, 2, 3, 4]] : List (Event Nat))
      = (List.range 1).map (frameAt 4 [1, 2, 3, 4]) :=
  ⟨((frame_integrity 4 1 3
      [Call.writeBlocking [1, 2], Call.writeBlocking [3, 4],
        Call.readIntoBlocking [0, 0, 0, 0]]
      (by decide) ⟨rfl, trivial⟩ rfl).2
      ⟨[0, 0, 0, 0], [0, 0, 0, 0], false, 0⟩
      [Event.iteration 2 2, Event.iteration 2 0, Event.swapped [1, 2, 3, 4],
        Event.consumed [1, 2, 3, 4]] (by rfl)).2
      [Call.writeBlocking [1, 2]]
      [Call.writeBlocking [3, 4], Call.readIntoBlocking [0, 0, 0, 0]] rfl,
    by rfl,
    ((frame_integrity 4 1 3
      [Call.writeBlocking [1, 2], Call.writeBlocking [3, 4],
        Call.readIntoBlocking [0, 0, 0, 0]]
      (by decide) ⟨rfl, trivial⟩ rfl).2
      ⟨[0, 0, 0, 0], [0, 0, 0, 0], false, 0⟩
      [Event.iteration 2 2, Event.iteration 2 0, Event.swapped [1, 2, 3, 4],
        Event.consumed [1, 2, 3, 4]] (by rfl)).1⟩

/-- C2 (latest-frame semantics).  On a freshly constructed queue with `N > 0`, after
any sequence of `writeBlocking` calls that writes `t ≥ N` samples in total with no
read in between, a following read hands the caller exactly samples
`[(t / N - 1) * N, (t / N) * N)` of the concatenated written stream: `readIntoBlocking`
returns it, `tryReadInto` that acquires the lock returns `true` with it, and any
`tryReadInto` that returns `true` hands over that frame. -/
theorem latest_frame [Inhabited α] (N fuel : Nat) (writes : List (List α))
    (hN : 0 < N) (hfuel : ∀ d ∈ writes, d.length < fuel)
    (ht : N ≤ writes.flatten.length) :
    ∃ q log, run fuel (writes.map Call.writeBlocking) (construct N) = some (q, log) ∧
      ∀ buffer : List α,
        readIntoBlocking q buffer =
          some ({ q with frontBuffer := buffer, frontBufferFilled := false },
            frameAt N writes.flatten (writes.flatten.length / N - 1)) ∧
        tryReadInto true q buffer =
          (true, { q with frontBuffer := buffer, frontBufferFilled := false },
            frameAt N writes.flatten (writes.flatten.length / N - 1)) ∧
        ∀ ownsLock, (tryReadInto ownsLock q buffer).1 = true →
          (tryReadInto ownsLock q buffer).2.2 =
            frameAt N writes.flatten (writes.flatten.length / N - 1) := by
  obtain ⟨hnb, hsz, hall, hw, hstream⟩ := written_writes N fuel writes hfuel
  have hstart : (construct N : AudioVisualizationQueue α).frontBufferFilled = true →
      0 < 0 ∧ (construct N : AudioVisualizationQueue α).frontBuffer
        = frameAt N ([] : List α) (0 - 1) := by
    intro h; simp [construct] at h
  obtain ⟨htot, hpost⟩ := run_spec N hN fuel (writes.map Call.writeBlocking) []
    (construct N) 0 (tracks_construct N hN) hstart hsz
  obtain ⟨⟨q, log⟩, hrun⟩ := htot hw hnb
  obtain ⟨a1, hp⟩ := hpost q log hrun
  rw [List.nil_append, hstream] at hp
  obtain ⟨hflag, hnoread⟩ := run_flag fuel _ _ _ _ hrun
  have hcons := hnoread hnb hall
  obtain ⟨ha, _⟩ := tracks_div_mod N _ a1 q hp.tracks
  have hpos : 0 < a1 := by
    rw [ha]; exact Nat.div_pos ht hN
  have hfilled : q.frontBufferFilled = true := by
    rw [hflag, flagAfter_eq, hcons, swapSinceLastRead_of_noRead log hcons, hp.frames]
    have : a1 - 0 = (a1 - 1) + 1 := by omega
    rw [this, List.range'_succ]
    simp [construct]
  have hfront := (hp.front hfilled).2
  rw [ha] at hfront
  refine ⟨q, log, hrun, ?_⟩
  intro buffer
  refine ⟨by simp [readIntoBlocking, hfilled, hfront],
    by simp [tryReadInto, hfilled, hfront], ?_⟩
  intro ownsLock hret
  cases ownsLock
  · simp [tryReadInto] at hret
  · simp [tryReadInto, hfilled, hfront]

/-- Witness for C2: `N = 2`, batches `[1,2,3]` and `[4,5]` (`t = 5`, two completed
frames and one sample of the third): the read returns `[3,4]`. -/
theorem latest_frame_witness :
    ∃ q log, run 4 ([[1, 2, 3], [4, 5]].map Call.writeBlocking)
        (construct 2 : AudioVisualizationQueue Nat) = some (q, log) ∧
      ∀ buffer : List Nat,
        readIntoBlocking q buffer =
          some ({ q with frontBuffer := buffer, frontBufferFilled := false },
            frameAt 2 [[1, 2, 3], [4, 5]].flatten
              ([[1, 2, 3], [4, 5]].flatten.length / 2 - 1)) ∧
        tryReadInto true q buffer =
          (true, { q with frontBuffer := buffer, frontBufferFilled := false },
            frameAt 2 [[1, 2, 3], [4, 5]].flatten
              ([[1, 2, 3], [4, 5]].flatten.length / 2 - 1)) ∧
        ∀ ownsLock, (tryReadInto ownsLock q buffer).1 = true →
          (tryReadInto ownsLock q buffer).2.2 =
            frameAt 2 [[1, 2, 3], [4, 5]].flatten
              ([[1, 2, 3], [4, 5]].flatten.length / 2 - 1) :=
  latest_frame 2 4 [[1, 2, 3], [4, 5]] (by decide) (by decide) (by decide)

/-- C3 (non-blocking miss).  In every state reached from a freshly constructed queue
by a schedule of completed calls (with any buffers) whose trace has no role swap
after its last successful read, `tryReadInto` returns `false` and leaves both the
caller's buffer and the whole queue state (both slots, cursor, front-ready flag)
unchanged, whether or not it acquired the lock. -/
theorem tryRead_miss [Inhabited α] (N fuel : Nat) (ops : List (Call α))
    (q : AudioVisualizationQueue α) (log : List (Event α)) (ownsLock : Bool)
    (buffer : List α)
    (hrun : run fuel ops (construct N) = some (q, log))
    (hno : swapSinceLastRead log = false) :
    tryReadInto ownsLock q buffer = (false, q, buffer) := by
  obtain ⟨hflag, _⟩ := run_flag fuel ops (construct N) q log hrun
  have hfalse : q.frontBufferFilled = false := by
    rw [hflag, flagAfter_eq, hno]
    simp [construct]
  simp [tryReadInto, hfalse]

/-- Witness for C3: `N = 2`; after writing `[1,2]` (one swap), a successful read and a
further write of one sample that does not fill the back slot, `tryReadInto` misses. -/
theorem tryRead_miss_witness :
    run 3 [Call.writeBlocking [1, 2], Call.readIntoBlocking [0, 0], Call.writeBlocking [3]]
        (construct 2 : AudioVisualizationQueue Nat)
      = some (⟨[0, 0], [3, 0], false, 1⟩,
          [Event.iteration 2 0, Event.swapped [1, 2], Event.consumed [1, 2],
            Event.iteration 1 1]) ∧
    swapSinceLastRead ([Event.iteration 2 0, Event.swapped [1, 2], Event.consumed [1, 2],
        Event.iteration 1 1] : List (Event Nat)) = false ∧
    tryReadInto true (⟨[0, 0], [3, 0], false, 1⟩ : AudioVisualizationQueue Nat) [9, 9]
      = (false, ⟨[0, 0], [3, 0], false, 1⟩, [9, 9]) :=
  ⟨by rfl, by rfl,
    tryRead_miss 2 3
      [Call.writeBlocking [1, 2], Call.readIntoBlocking [0, 0], Call.writeBlocking [3]]
      ⟨[0, 0], [3, 0], false, 1⟩
      [Event.iteration 2 0, Event.swapped [1, 2], Event.consumed [1, 2],
        Event.iteration 1 1]
      true [9, 9] (by rfl) (by rfl)⟩

/-- C4, counterexample.  The front slot is filled and still `tryReadInto` returns
`false`: the producer is in the middle of `writeBlocking` and holds the mutex, so the
`try_to_lock` acquisition fails (`N = 2`, batch `[1,2,3]`, after the first swap and
the re-acquisition of the lock). -/
theorem content_exchange_lock_held :
    Machine.run [Move.call [1, 2, 3], Move.advance, Move.advance, Move.advance]
        ⟨(construct 2 : AudioVisualizationQueue Nat), Producer.idle⟩
      = some (⟨⟨[1, 2], [0, 0], true, 0⟩, Producer.locked [1, 2, 3] 2⟩,
          [Event.iteration 2 0, Event.swapped [1, 2]]) ∧
    Machine.move ⟨⟨[1, 2], [0, 0], true, 0⟩, Producer.locked [1, 2, 3] 2⟩
        (Move.tryReadInto [9, 9])
      = some (⟨⟨[1, 2], [0, 0], true, 0⟩, Producer.locked [1, 2, 3] 2⟩, [Event.missed]) ∧
    (tryReadInto false (⟨[1, 2], [0, 0], true, 0⟩ : AudioVisualizationQueue Nat) [9, 9]).1
      = false := by
  refine ⟨by rfl, by rfl, by rfl⟩

/-- C4, amended (content exchange on a successful read).  For every queue state with
the front-ready flag set and every caller buffer `b`, a `tryReadInto` that acquires
the lock returns `true` and performs exactly the state change of `readIntoBlocking`:
the caller receives the former front slot, the front slot receives `b`, the flag is
cleared, the back slot and the cursor are unchanged.  A `tryReadInto` that does not
acquire the lock returns `false` and changes nothing. -/
theorem content_exchange (q : AudioVisualizationQueue α) (b : List α)
    (h : q.frontBufferFilled = true) :
    tryReadInto true q b =
      (true, ⟨b, q.backBuffer, false, q.backBufferWriteIdx⟩, q.frontBuffer) ∧
    readIntoBlocking q b =
      some (⟨b, q.backBuffer, false, q.backBufferWriteIdx⟩, q.frontBuffer) ∧
    tryReadInto false q b = (false, q, b) := by
  simp [tryReadInto, readIntoBlocking, h]

/-- Witness for C4 (amended). -/
theorem content_exchange_witness :
    tryReadInto true (⟨[1, 2], [3, 0], true, 1⟩ : AudioVisualizationQueue Nat) [9, 9] =
      (true, ⟨[9, 9], [3, 0], false, 1⟩, [1, 2]) ∧
    readIntoBlocking (⟨[1, 2], [3, 0], true, 1⟩ : AudioVisualizationQueue Nat) [9, 9] =
      some (⟨[9, 9], [3, 0], false, 1⟩, [1, 2]) ∧
    tryReadInto false (⟨[1, 2], [3, 0], true, 1⟩ : AudioVisualizationQueue Nat) [9, 9] =
      (false, ⟨[1, 2], [3, 0], true, 1⟩, [9, 9]) :=
  content_exchange ⟨[1, 2], [3, 0], true, 1⟩ [9, 9] rfl

/-- C5, counterexample.  `N = 4`, one `writeBlocking` call with `[1,...,8]`: two role
swaps occur, but a `readIntoBlocking` issued after the call has returned receives
`[5,6,7,8]`, not `[1,2,3,4]`; the first frame is gone and a second
`readIntoBlocking` finds the front slot not filled. -/
theorem two_frames_after_call :
    run 3 [Call.writeBlocking [1, 2, 3, 4, 5, 6, 7, 8]]
        (construct 4 : AudioVisualizationQueue Nat)
      = some (⟨[5, 6, 7, 8], [1, 2, 3, 4], true, 0⟩,
          [Event.iteration 4 0, Event.swapped [1, 2, 3, 4],
            Event.iteration 4 0, Event.swapped [5, 6, 7, 8]]) ∧
    readIntoBlocking (⟨[5, 6, 7, 8], [1, 2, 3, 4], true, 0⟩ : AudioVisualizationQueue Nat)
        [0, 0, 0, 0]
      = some (⟨[0, 0, 0, 0], [1, 2, 3, 4], false, 0⟩, [5, 6, 7, 8]) ∧
    ([5, 6, 7, 8] : List Nat) ≠ [1, 2, 3, 4] ∧
    readIntoBlocking (⟨[0, 0, 0, 0], [1, 2, 3, 4], false, 0⟩ : AudioVisualizationQueue Nat)
        [5, 6, 7, 8] = none := by
  refine ⟨by rfl, by rfl, by decide, by rfl⟩

/-- C5, amended (two-frame scenario).  For every `N > 0`, during a single
`writeBlocking` call of `2 * N` samples on a freshly constructed queue two role swaps
occur; a `readIntoBlocking` that returns between the first and the second swap (the
producer has released the mutex) receives the first `N` samples, a second
`readIntoBlocking` after the second swap receives the last `N` samples, and a third
`tryReadInto` before any new write returns `false`. -/
theorem two_frames_interleaved [Inhabited α] (N : Nat) (data b1 b2 b3 : List α)
    (hN : 0 < N) (hd : data.length = 2 * N) :
    Machine.run
        [Move.call data, Move.advance, Move.advance, Move.readIntoBlocking b1,
          Move.advance, Move.advance, Move.advance, Move.advance,
          Move.readIntoBlocking b2, Move.tryReadInto b3]
        ⟨construct N, Producer.idle⟩
      = some (⟨⟨b2, b1, false, 0⟩, Producer.idle⟩,
          [Event.iteration N 0, Event.swapped (data.take N), Event.consumed (data.take N),
            Event.iteration N 0, Event.swapped (data.drop N), Event.consumed (data.drop N),
            Event.missed]) := by
  have hfill1 : fillBackBuffer (construct N : AudioVisualizationQueue α) data 0 = some
      { queue := ⟨List.replicate N default, data.take N, false, 0⟩
        elementsWritten := N
        full := true
        events := [Event.iteration N 0] } := by
    rw [fillBackBuffer_full (construct N) data 0 N (by simp [construct])
      (by simpa [construct] using hN) (by simp [construct]; omega)]
    simp [construct]
  have hfill2 : fillBackBuffer
      (⟨b1, List.replicate N default, false, 0⟩ : AudioVisualizationQueue α) data N = some
      { queue := ⟨b1, data.drop N, false, 0⟩
        elementsWritten := 2 * N
        full := true
        events := [Event.iteration N 0] } := by
    rw [fillBackBuffer_full _ data N N (by simp) (by simpa using hN) (by simp; omega)]
    have : List.take N (List.drop N data) = List.drop N data := by
      apply List.take_of_length_le; simp; omega
    simp [this]
    omega
  simp only [construct] at hfill1
  have h0 : 0 < data.length := by omega
  have h1 : N < data.length := by omega
  have h2 : ¬ 2 * N < data.length := by omega
  simp [Machine.run, Machine.move, hfill1, hfill2, h0, h1, h2, swapBuffersBlocking,
    readIntoBlocking, tryReadInto, Producer.holdsMutex, construct]

/-- Witness for C5 (amended): `N = 4`, data `[1,...,8]` yields `[1,2,3,4]`, then
`[5,6,7,8]`, then `false`. -/
theorem two_frames_interleaved_witness :
    Machine.run
        [Move.call [1, 2, 3, 4, 5, 6, 7, 8], Move.advance, Move.advance,
          Move.readIntoBlocking [0, 0, 0, 0],
          Move.advance, Move.advance, Move.advance, Move.advance,
          Move.readIntoBlocking [1, 2, 3, 4], Move.tryReadInto [5, 6, 7, 8]]
        ⟨(construct 4 : AudioVisualizationQueue Nat), Producer.idle⟩
      = some (⟨⟨[1, 2, 3, 4], [0, 0, 0, 0], false, 0⟩, Producer.idle⟩,
          [Event.iteration 4 0, Event.swapped ([1, 2, 3, 4, 5, 6, 7, 8].take 4),
            Event.consumed ([1, 2, 3, 4, 5, 6, 7, 8].take 4),
            Event.iteration 4 0, Event.swapped ([1, 2, 3, 4, 5, 6, 7, 8].drop 4),
            Event.consumed ([1, 2, 3, 4, 5, 6, 7, 8].drop 4),
            Event.missed]) :=
  two_frames_interleaved 4 [1, 2, 3, 4, 5, 6, 7, 8] [0, 0, 0, 0] [1, 2, 3, 4] [5, 6, 7, 8]
    (by decide) rfl

/-- C6 (overflow containment, swap count and state).  For `N > 0` and `0 < k < N`, a
single `writeBlocking` call of `2 * N + k` samples on a queue with slots of length `N`
and write cursor `0` (with an iteration budget of at least three) returns, triggers
exactly two role swaps, and leaves the front-ready flag set, the front slot holding
samples `[N, 2N)`, the back slot holding samples `[2N, 2N + k)` in positions
`0..k-1`, both slots of length `N`, and the cursor at `k`; a further write is accepted
and continues from position `k`. -/
theorem overflow_two_swaps (N k fuel : Nat) (q : AudioVisualizationQueue α)
    (data : List α) (hN : 0 < N) (_hk : 0 < k) (hkN : k < N)
    (hf : q.frontBuffer.length = N) (hb : q.backBuffer.length = N)
    (hc : q.backBufferWriteIdx = 0) (hd : data.length = 2 * N + k) (hfuel : 3 ≤ fuel) :
    ∃ q1 evs, writeBlocking fuel q data = some (q1, evs) ∧
      swapFrames evs = [data.take N, (data.drop N).take N] ∧
      q1.frontBufferFilled = true ∧
      q1.frontBuffer = (data.drop N).take N ∧
      q1.backBuffer.take k = data.drop (2 * N) ∧
      q1.backBufferWriteIdx = k ∧
      q1.frontBuffer.length = N ∧ q1.backBuffer.length = N ∧
      ∀ (more : List α) (fuel1 : Nat), more.length < fuel1 →
        ∃ q2 evs2, writeBlocking fuel1 q1 more = some (q2, evs2) ∧
          q2.backBufferWriteIdx = (k + more.length) % N := by
  have h3 : 3 * N ≤ fuel * N := Nat.mul_le_mul_right N hfuel
  obtain ⟨q1, evs, a1, hrun, hp⟩ := writeBlocking_spec N hN fuel q data hf hb
    (by omega) (by omega)
  rw [hc, List.take_zero, List.nil_append] at hp
  obtain ⟨t1, t2, t3, t4, t5⟩ := hp.tracks
  obtain ⟨ha, hidx⟩ := divmod_unique N a1 _ 2 k (by rw [← t4, hd]) t3 hkN
  subst ha
  have hfr := hp.frames
  have hren := hp.renewed (by omega)
  simp only [List.range', List.map, frameAt, Nat.zero_mul, Nat.one_mul, List.drop_zero,
    Nat.sub_zero, Nat.zero_add, show (2 - 1) * N = N by simp] at hfr hren
  refine ⟨q1, evs, hrun, hfr, hren.1, hren.2, ?_, hidx, t1, t2, ?_⟩
  · rw [← hidx, t5]
  · intro more fuel1 hmore
    obtain ⟨q2, evs2, a2, hrun2, hp2⟩ := writeBlocking_spec N hN fuel1 q1 more t1 t2 t3
      (fuel_enough N fuel1 more.length _ t3 hmore)
    refine ⟨q2, evs2, hrun2, ?_⟩
    have hlen : (List.take q1.backBufferWriteIdx q1.backBuffer ++ more).length
        = q1.backBufferWriteIdx + more.length := by
      simp [t2]; omega
    rw [(tracks_div_mod N _ a2 q2 hp2.tracks).2, hlen, hidx]

/-- Witness for C6: `N = 2`, `k = 1`, data `[1,2,3,4,5]` on a fresh queue. -/
theorem overflow_two_swaps_witness :
    ∃ q1 evs, writeBlocking 3 (construct 2 : AudioVisualizationQueue Nat) [1, 2, 3, 4, 5]
        = some (q1, evs) ∧
      swapFrames evs = [[1, 2, 3, 4, 5].take 2, ([1, 2, 3, 4, 5].drop 2).take 2] ∧
      q1.frontBufferFilled = true ∧
      q1.frontBuffer = ([1, 2, 3, 4, 5].drop 2).take 2 ∧
      q1.backBuffer.take 1 = [1, 2, 3, 4, 5].drop (2 * 2) ∧
      q1.backBufferWriteIdx = 1 ∧
      q1.frontBuffer.length = 2 ∧ q1.backBuffer.length = 2 ∧
      ∀ (more : List Nat) (fuel1 : Nat), more.length < fuel1 →
        ∃ q2 evs2, writeBlocking fuel1 q1 more = some (q2, evs2) ∧
          q2.backBufferWriteIdx = (1 + more.length) % 2 :=
  overflow_two_swaps 2 1 3 (construct 2) [1, 2, 3, 4, 5] (by decide) (by decide)
    (by decide) rfl rfl rfl rfl (by decide)

/-- C7, counterexample.  `N = 2`, `k = 1`: one `writeBlocking` call of `5 = 2 * 2 + 1`
samples on a fresh queue prints no overflow diagnostic, not one. -/
theorem overflow_diagnostic_absent :
    writeBlocking 3 (construct 2 : AudioVisualizationQueue Nat) [1, 2, 3, 4, 5]
      = some (⟨[3, 4], [5, 2], true, 1⟩,
          [Event.iteration 2 0, Event.swapped [1, 2], Event.iteration 2 0,
            Event.swapped [3, 4], Event.iteration 1 1]) ∧
    (warnings ([Event.iteration 2 0, Event.swapped [1, 2], Event.iteration 2 0,
        Event.swapped [3, 4], Event.iteration 1 1] : List (Event Nat))).length ≠ 1 := by
  refine ⟨by rfl, by decide⟩

/-- C7, amended (overflow containment, diagnostic).  For `N > 0` and `0 < k < N`, a
single `writeBlocking` call of `2 * N + k` samples on a queue with slots of length `N`
and cursor below `N` (with an iteration budget of at least four) returns and prints
no overflow diagnostic: each pass copies no more than the back slot can still hold,
so the cursor never exceeds the slot length. -/
theorem overflow_no_diagnostic (N k fuel : Nat) (q : AudioVisualizationQueue α)
    (data : List α) (hN : 0 < N) (_hk : 0 < k) (hkN : k < N)
    (hf : q.frontBuffer.length = N) (hb : q.backBuffer.length = N)
    (hc : q.backBufferWriteIdx < N) (hd : data.length = 2 * N + k) (hfuel : 4 ≤ fuel) :
    ∃ q1 evs, writeBlocking fuel q data = some (q1, evs) ∧ warnings evs = [] := by
  have h4 : 4 * N ≤ fuel * N := Nat.mul_le_mul_right N hfuel
  obtain ⟨q1, evs, a1, hrun, hp⟩ := writeBlocking_spec N hN fuel q data hf hb hc
    (by omega)
  exact ⟨q1, evs, hrun, hp.quiet⟩

/-- Witness for C7 (amended): `N = 2`, `k = 1`, data `[1,2,3,4,5]` on a fresh queue. -/
theorem overflow_no_diagnostic_witness :
    ∃ q1 evs, writeBlocking 4 (construct 2 : AudioVisualizationQueue Nat) [1, 2, 3, 4, 5]
        = some (q1, evs) ∧ warnings evs = [] :=
  overflow_no_diagnostic 2 1 4 (construct 2) [1, 2, 3, 4, 5] (by decide) (by decide)
    (by decide) rfl rfl (by decide) rfl (by decide)

/-- C8 (write-cursor invariant).  For `N > 0`, in every state reached from a freshly
constructed queue by a schedule of completed `writeBlocking`, `tryReadInto` and
`readIntoBlocking` calls whose read buffers all have length `N`, the write cursor is
below `N`, and it was below `N` after every loop iteration on the way; moreover every
further `writeBlocking` call of `L` samples (with an iteration budget above `L`)
returns with the cursor at `(c + L) mod N`, where `c` is the cursor at its start, and
keeps the cursor below `N` after each of its iterations. -/
theorem write_cursor_invariant [Inhabited α] (N fuel : Nat) (ops : List (Call α))
    (q : AudioVisualizationQueue α) (log : List (Event α))
    (hN : 0 < N) (hsz : readBuffersSized N ops)
    (hrun : run fuel ops (construct N) = some (q, log)) :
    q.backBufferWriteIdx < N ∧
    (∀ p ∈ iterations log, p.2 < N) ∧
    ∀ (data : List α) (fuel1 : Nat), data.length < fuel1 →
      ∃ q1 evs, writeBlocking fuel1 q data = some (q1, evs) ∧
        q1.backBufferWriteIdx = (q.backBufferWriteIdx + data.length) % N ∧
        ∀ p ∈ iterations evs, p.2 < N := by
  have hstart : (construct N : AudioVisualizationQueue α).frontBufferFilled = true →
      0 < 0 ∧ (construct N : AudioVisualizationQueue α).frontBuffer
        = frameAt N ([] : List α) (0 - 1) := by
    intro h; simp [construct] at h
  obtain ⟨_, hpost⟩ := run_spec N hN fuel ops [] (construct N) 0
    (tracks_construct N hN) hstart hsz
  obtain ⟨a1, hp⟩ := hpost q log hrun
  obtain ⟨t1, t2, t3, _, _⟩ := hp.tracks
  refine ⟨t3, fun p hp1 => (hp.each p hp1).2, ?_⟩
  intro data fuel1 hfuel
  obtain ⟨q1, evs, a2, hrun1, hp1⟩ := writeBlocking_spec N hN fuel1 q data t1 t2 t3
    (fuel_enough N fuel1 data.length _ t3 hfuel)
  refine ⟨q1, evs, hrun1, ?_, fun p hp2 => (hp1.each p hp2).2⟩
  have hlen : (List.take q.backBufferWriteIdx q.backBuffer ++ data).length
      = q.backBufferWriteIdx + data.length := by
    simp [t2]; omega
  rw [(tracks_div_mod N _ a2 q1 hp1.tracks).2, hlen]

/-- Witness for C8: `N = 4`, after writing `[1,2,3]`, a missed `tryReadInto` and a
write of `[4,5,6]`, the cursor is `2 = 6 mod 4`. -/
theorem write_cursor_invariant_witness :
    run 4 [Call.writeBlocking [1, 2, 3], Call.tryReadInto true [0, 0, 0, 0],
        Call.writeBlocking [4, 5, 6]] (construct 4 : AudioVisualizationQueue Nat)
      = some (⟨[1, 2, 3, 4], [5, 6, 0, 0], true, 2⟩,
          [Event.iteration 3 3, Event.missed, Event.iteration 1 0,
            Event.swapped [1, 2, 3, 4], Event.iteration 2 2]) ∧
    ((2 : Nat) < 4 ∧
    (∀ p ∈ iterations ([Event.iteration 3 3, Event.missed, Event.iteration 1 0,
        Event.swapped [1, 2, 3, 4], Event.iteration 2 2] : List (Event Nat)), p.2 < 4) ∧
    ∀ (data : List Nat) (fuel1 : Nat), data.length < fuel1 →
      ∃ q1 evs, writeBlocking fuel1
          (⟨[1, 2, 3, 4], [5, 6, 0, 0], true, 2⟩ : AudioVisualizationQueue Nat) data
          = some (q1, evs) ∧
        q1.backBufferWriteIdx = (2 + data.length) % 4 ∧
        ∀ p ∈ iterations evs, p.2 < 4) :=
  ⟨by rfl,
    write_cursor_invariant 4 4
      [Call.writeBlocking [1, 2, 3], Call.tryReadInto true [0, 0, 0, 0],
        Call.writeBlocking [4, 5, 6]]
      ⟨[1, 2, 3, 4], [5, 6, 0, 0], true, 2⟩
      [Event.iteration 3 3, Event.missed, Event.iteration 1 0,
        Event.swapped [1, 2, 3, 4], Event.iteration 2 2]
      (by decide) ⟨rfl, trivial⟩ (by rfl)⟩

/-- C9, counterexample.  `N = 2`: after writing `[1,2]`, a `readIntoBlocking` with a
caller buffer of length three leaves the front slot with three samples; the next
role swap makes it the back slot. -/
theorem slot_length_changed :
    run 3 [Call.writeBlocking [1, 2], Call.readIntoBlocking [7, 8, 9]]
        (construct 2 : AudioVisualizationQueue Nat)
      = some (⟨[7, 8, 9], [0, 0], false, 0⟩,
          [Event.iteration 2 0, Event.swapped [1, 2], Event.consumed [1, 2]]) ∧
    (⟨[7, 8, 9], [0, 0], false, 0⟩ : AudioVisualizationQueue Nat).frontBuffer.length ≠ 2 ∧
    run 3 [Call.writeBlocking [1, 2], Call.readIntoBlocking [7, 8, 9],
        Call.writeBlocking [3, 4]] (construct 2 : AudioVisualizationQueue Nat)
      = some (⟨[3, 4], [7, 8, 9], true, 0⟩,
          [Event.iteration 2 0, Event.swapped [1, 2], Event.consumed [1, 2],
            Event.iteration 2 0, Event.swapped [3, 4]]) := by
  refine ⟨by rfl, by decide, by rfl⟩

/-- C9, amended (fixed slot length).  In every state reached from a freshly
constructed queue by a schedule of completed `writeBlocking`, `tryReadInto` and
`readIntoBlocking` calls in which every caller-supplied read buffer has length `N`,
each of the two slots holds exactly `N` samples. -/
theorem slot_length_fixed [Inhabited α] (N fuel : Nat) (ops : List (Call α))
    (q : AudioVisualizationQueue α) (log : List (Event α))
    (hsz : readBuffersSized N ops)
    (hrun : run fuel ops (construct N) = some (q, log)) :
    q.frontBuffer.length = N ∧ q.backBuffer.length = N :=
  run_length N fuel ops (construct N) q log (by simp [construct]) (by simp [construct])
    hsz hrun

/-- Witness for C9 (amended): `N = 2`, write `[1,2,3]`, read with a buffer of length
two, write `[4]`. -/
theorem slot_length_fixed_witness :
    run 3 [Call.writeBlocking [1, 2, 3], Call.readIntoBlocking [9, 9],
        Call.writeBlocking [4]] (construct 2 : AudioVisualizationQueue Nat)
      = some (⟨[3, 4], [9, 9], true, 0⟩,
          [Event.iteration 2 0, Event.swapped [1, 2], Event.iteration 1 1,
            Event.consumed [1, 2], Event.iteration 1 0, Event.swapped [3, 4]]) ∧
    (⟨[3, 4], [9, 9], true, 0⟩ : AudioVisualizationQueue Nat).frontBuffer.length = 2 ∧
    (⟨[3, 4], [9, 9], true, 0⟩ : AudioVisualizationQueue Nat).backBuffer.length = 2 :=
  ⟨by rfl,
    slot_length_fixed 2 3
      [Call.writeBlocking [1, 2, 3], Call.readIntoBlocking [9, 9], Call.writeBlocking [4]]
      ⟨[3, 4], [9, 9], true, 0⟩
      [Event.iteration 2 0, Event.swapped [1, 2], Event.iteration 1 1,
        Event.consumed [1, 2], Event.iteration 1 0, Event.swapped [3, 4]]
      ⟨rfl, trivial⟩ (by rfl)⟩

/-- C10 (termination of `writeBlocking`).  For `N > 0`, every queue state whose slots
have length `N` and whose cursor `c` is below `N`, and every finite `data`, the loop
of `writeBlocking` finishes within `(c + len) / N + 1` iterations: with that budget
(and with every larger one) the call returns, it made at most that many iterations,
each iteration copied at least one sample, and the iterations copied `len` samples
in total. -/
theorem writeBlocking_terminates (N : Nat) (q : AudioVisualizationQueue α)
    (data : List α) (hN : 0 < N)
    (hf : q.frontBuffer.length = N) (hb : q.backBuffer.length = N)
    (hc : q.backBufferWriteIdx < N) :
    ∃ q1 evs,
      writeBlocking ((q.backBufferWriteIdx + data.length) / N + 1) q data = some (q1, evs) ∧
      (∀ fuel, (q.backBufferWriteIdx + data.length) / N + 1 ≤ fuel →
        writeBlocking fuel q data = some (q1, evs)) ∧
      (iterations evs).length ≤ (q.backBufferWriteIdx + data.length) / N + 1 ∧
      (∀ p ∈ iterations evs, 1 ≤ p.1) ∧
      ((iterations evs).map Prod.fst).sum = data.length := by
  obtain ⟨q1, evs, a1, hrun, hp⟩ := writeBlocking_spec N hN
    ((q.backBufferWriteIdx + data.length) / N + 1) q data hf hb hc
    (lt_succ_div_mul _ N hN)
  have hlen : (List.take q.backBufferWriteIdx q.backBuffer ++ data).length
      = q.backBufferWriteIdx + data.length := by
    simp [hb]; omega
  have ha := (tracks_div_mod N _ a1 q1 hp.tracks).1
  rw [hlen] at ha
  refine ⟨q1, evs, hrun, ?_, ?_, fun p hp1 => (hp.each p hp1).1, hp.total⟩
  · intro fuel hle
    exact writeLoop_mono_le data _ fuel 0 q (q1, evs) hle hrun
  · have := hp.count
    omega

/-- Witness for C10: `N = 2`, cursor `1`, seven samples: `(1 + 7) / 2 + 1 = 5`
iterations suffice. -/
theorem writeBlocking_terminates_witness :
    ∃ q1 evs,
      writeBlocking ((1 + [1, 2, 3, 4, 5, 6, 7].length) / 2 + 1)
        (⟨[0, 0], [9, 0], false, 1⟩ : AudioVisualizationQueue Nat) [1, 2, 3, 4, 5, 6, 7]
        = some (q1, evs) ∧
      (∀ fuel, (1 + [1, 2, 3, 4, 5, 6, 7].length) / 2 + 1 ≤ fuel →
        writeBlocking fuel (⟨[0, 0], [9, 0], false, 1⟩ : AudioVisualizationQueue Nat)
          [1, 2, 3, 4, 5, 6, 7] = some (q1, evs)) ∧
      (iterations evs).length ≤ (1 + [1, 2, 3, 4, 5, 6, 7].length) / 2 + 1 ∧
      (∀ p ∈ iterations evs, 1 ≤ p.1) ∧
      ((iterations evs).map Prod.fst).sum = [1, 2, 3, 4, 5, 6, 7].length :=
  writeBlocking_terminates 2 ⟨[0, 0], [9, 0], false, 1⟩ [1, 2, 3, 4, 5, 6, 7]
    (by decide) rfl rfl (by decide)

end Claims

end AVQ
